import Mathlib

/-!
# Verification of the domain-checker concurrent lookup scheduler

Shallow embedding of the core of `marcosrioj/domain-checker`:
the item store (`records` + `index`), the incremental stats aggregator
(`adjustStats` / `recomputeStats`), the dedup queues
(`addToQueue` / `removeFromQueue` / `popCandidate`), the two worker pools
with in-flight tracking (modelled as a small-step transition system over
`Config`), the RDAP rate limiter (`withRdapLock`, modelled as a timed
schedule), and the lookup services (`runDnsLookup`, `runRdapOnly`,
`rdapResultOf`) and input normalization (`normalizeDomain`).

All definitions are translated from the TypeScript source
(`src/features/domains/...`); JS `Set`s become `Finset String`,
JS arrays become `List`, the JS `Map` from record id to array position
becomes an association list `List (String × Nat)`, and JS numbers used
as counters become `Int`.
-/

namespace DomainChecker

/-! ## Data model (`types/domainTypes.ts`) -/

/-- `DomainStatus` from `domainTypes.ts`:
`"queued" | "checking" | "available" | "taken" | "unknown"`. -/
inductive DomainStatus
  | queued
  | checking
  | available
  | taken
  | unknown
  deriving DecidableEq, Repr

/-- `RdapStatus` from `domainTypes.ts`:
`"available" | "taken" | "unknown" | "not_checked"`. -/
inductive RdapStatus
  | available
  | taken
  | unknown
  | not_checked
  deriving DecidableEq, Repr

/-- `DomainRecord` from `domainTypes.ts`.  `source` is always the literal
`"import"` in the source, kept as a `String` field. -/
structure DomainRecord where
  id : String
  domain : String
  core : String
  status : DomainStatus
  rdapStatus : RdapStatus
  createdAt : Nat
  checkedAt : Option Nat
  source : String
  deriving DecidableEq, Repr

/-- The two checker stages, the `"dns" | "rdap"` strings of the hook. -/
inductive Checker
  | dns
  | rdap
  deriving DecidableEq, Repr

/-! ## `useDomainChecker` constants and predicates -/

/-- `const BATCH_SIZE = 50;` — the worker-pool size of each stage. -/
def BATCH_SIZE : Nat := 50

/-- `const rdapFinalStatuses = new Set<RdapStatus>(["available", "taken"]);` -/
def rdapFinalStatuses : Finset RdapStatus := {RdapStatus.available, RdapStatus.taken}

/-- `isRdapCandidate` from the hook: the verify-stage eligibility predicate.
`record.status === "available" && !rdapFinalStatuses.has(record.rdapStatus)` -/
def isRdapCandidate (record : DomainRecord) : Bool :=
  record.status = DomainStatus.available && !(record.rdapStatus ∈ rdapFinalStatuses)

/-! ## Input normalization (`utils/domainUtils.ts`)

Strings are handled as their character lists.  JS `toLowerCase` is
modelled by `Char.toLower` (ASCII lowering; only ASCII characters can
survive the final character-class check anyway). -/

/-- The JS `\s` character class (as used by `trim` and `replace(/\s+/g)`). -/
def isJsSpace (c : Char) : Bool :=
  c = ' ' ∨ c = '\t' ∨ c = '\n' ∨ c = '\x0b' ∨ c = '\x0c' ∨ c = '\r' ∨
  c = '\u00A0' ∨ c = '\u1680' ∨ ('\u2000' ≤ c ∧ c ≤ '\u200A') ∨
  c = '\u2028' ∨ c = '\u2029' ∨ c = '\u202F' ∨ c = '\u205F' ∨ c = '\u3000' ∨ c = '\uFEFF'

/-- A character allowed by the final check `/^[a-z0-9.-]+$/`. -/
def isDomainChar (c : Char) : Bool :=
  ('a' ≤ c ∧ c ≤ 'z') ∨ ('0' ≤ c ∧ c ≤ '9') ∨ c = '.' ∨ c = '-'

/-- `value.trim()`: drop JS whitespace from both ends. -/
def trimChars (s : List Char) : List Char :=
  ((s.dropWhile isJsSpace).reverse.dropWhile isJsSpace).reverse

/-- `sanitized.replace(/^[a-z]+:\/\//i, "")`: strip a protocol prefix.
`[a-z]+://` matches at the start iff the maximal leading run of letters is
nonempty and is followed by `://`. -/
def stripProtocol (s : List Char) : List Char :=
  let letters := s.takeWhile (fun c => 'a' ≤ c ∧ c ≤ 'z')
  let rest := s.drop letters.length
  if letters ≠ [] ∧ rest.take 3 = [':', '/', '/'] then rest.drop 3 else s

/-- `sanitized.replace(/^\/\//, "")`: strip a leading `//`. -/
def stripSlashes (s : List Char) : List Char :=
  if s.take 2 = ['/', '/'] then s.drop 2 else s

/-- `normalizeDomain` from `domainUtils.ts`, on character lists. -/
def normalizeChars (value : List Char) : Option (List Char) :=
  if value = [] then none
  else
    let s0 := (trimChars value).map Char.toLower
    if s0 = [] then none
    else
      let s1 := s0.filter (fun c => !isJsSpace c)
      let s2 := stripProtocol s1
      let s3 := stripSlashes s2
      let s4 := s3.takeWhile (fun c => !(c = '/' ∨ c = '?' ∨ c = '#'))
      let s5 := ((s4.dropWhile (· = '.')).reverse.dropWhile (· = '.')).reverse
      if s5 = [] then none
      else
        let s6 := if '.' ∈ s5 then s5 else s5 ++ ['.', 'c', 'o', 'm']
        if s6.all isDomainChar then some s6 else none

/-- `normalizeDomain(value)`: `null` becomes `none`. -/
def normalizeDomain (value : String) : Option String :=
  (normalizeChars value.data).map String.mk

/-- `deriveCore(domain)`: strip a leading `www.`, then drop the last
dot-separated label. -/
def deriveCore (domain : String) : String :=
  let trimmed := if domain.startsWith "www." then domain.drop 4 else domain
  let parts := trimmed.splitOn "."
  if parts.length ≤ 1 then trimmed
  else String.intercalate "." (parts.take (parts.length - 1))

/-- A record as built by `enqueueDomains` for a normalized domain:
`status: "queued"`, `rdapStatus: "not_checked"`, `checkedAt: null`,
`source: "import"`.  `id` models `createId()` and `now` models
`Date.now()`. -/
def mkImportRecord (id domain : String) (now : Nat) : DomainRecord :=
  { id := id, domain := domain, core := deriveCore domain,
    status := DomainStatus.queued, rdapStatus := RdapStatus.not_checked,
    createdAt := now, checkedAt := none, source := "import" }

/-! ## Dedup queue primitives

`addToQueue(queueRef, setRef, id)` and `removeFromQueue(setRef, id)` from
the hook.  A queue is a `List String` (the backing array) together with a
`Finset String` (the membership set). -/

/-- `addToQueue`: no-op when `id` is already in the membership set,
otherwise add to the set and push onto the tail of the array. -/
def addToQueue (queue : List String) (set : Finset String) (id : String) :
    List String × Finset String :=
  if id ∈ set then (queue, set) else (queue ++ [id], insert id set)

/-- `removeFromQueue`: lazy deletion — removes `id` from the membership set
only; the stale array entry is discarded later by `popCandidate`. -/
def removeFromQueue (set : Finset String) (id : String) : Finset String :=
  set.erase id

/-! ## Lookup services (`services/lookupService.ts`)

The two external `fetch` calls are opaque: their possible outcomes are the
transport/HTTP result vocabulary the source branches on. -/

/-- Outcome of the RDAP `fetch`: a transport-level failure (the `catch`
branch) or an HTTP response with a status code
(`response.ok` is `200 ≤ status ≤ 299`). -/
inductive RdapResp
  | failure
  | http (status : Nat)
  deriving DecidableEq, Repr

/-- Outcome of the DNS-over-HTTPS `fetch`: a transport-level or JSON-parse
failure (the `catch` branch), a non-ok HTTP response, or an ok response
whose JSON `Status` field is the given numeric code (`none` when the field
is absent or not a number). -/
inductive DnsResp
  | failure
  | notOk
  | ok (code : Option Int)
  deriving DecidableEq, Repr

/-- Body of `runRdapLookup`: `404 → "available"`, other 2xx (`response.ok`)
`→ "taken"`, anything else and the `catch` branch `→ "unknown"`. -/
def rdapResultOf : RdapResp → RdapStatus
  | RdapResp.failure => RdapStatus.unknown
  | RdapResp.http status =>
      if status = 404 then RdapStatus.available
      else if 200 ≤ status ∧ status ≤ 299 then RdapStatus.taken
      else RdapStatus.unknown

/-- `runDnsLookup(record)`.  `resp` is the DNS fetch outcome, `rdap` the
outcome of the inline RDAP lookup performed when the DNS `Status` code is
`3` (NXDOMAIN), and `now` models `Date.now()`. -/
def runDnsLookup (record : DomainRecord) (resp : DnsResp) (rdap : RdapResp)
    (now : Nat) : DomainRecord :=
  let next := { record with checkedAt := some now }
  match resp with
  | DnsResp.failure =>
      { next with status := DomainStatus.unknown, rdapStatus := RdapStatus.not_checked }
  | DnsResp.notOk =>
      { next with status := DomainStatus.unknown, rdapStatus := RdapStatus.not_checked }
  | DnsResp.ok code =>
      match code with
      | some c =>
          if c = 3 then
            { next with status := DomainStatus.available, rdapStatus := rdapResultOf rdap }
          else if c = 2 ∨ c = 5 then
            { next with status := DomainStatus.unknown, rdapStatus := RdapStatus.not_checked }
          else
            { next with status := DomainStatus.taken, rdapStatus := RdapStatus.not_checked }
      | none =>
          { next with status := DomainStatus.unknown, rdapStatus := RdapStatus.not_checked }

/-- `runRdapOnly(record)`: runs the RDAP lookup and writes its result into
`rdapStatus`, stamping `checkedAt` and keeping `status` unchanged. -/
def runRdapOnly (record : DomainRecord) (rdap : RdapResp) (now : Nat) : DomainRecord :=
  { record with rdapStatus := rdapResultOf rdap, checkedAt := some now,
                status := record.status }

/-! ## The RDAP rate limiter (`withRdapLock`)

```
let rdapLock: Promise<void> = Promise.resolve();
async function withRdapLock<T>(task: () => Promise<T>): Promise<T> {
  const previous = rdapLock; ... rdapLock = new Promise(...);
  await previous;
  try { return await task(); }
  finally { await new Promise((r) => setTimeout(r, 500)); release(); }
}
```

Each caller chains onto the previous caller's release promise, so the
callers form a FIFO chain.  Caller `k` starts when both it has arrived and
the lock has become free (`max arrival free`), runs its task for
`duration`, and releases the lock `rdapCooldownMs` after its task
completes.  `runRdapLocked` is the timed denotation of a chain of RDAP
lookups through the lock: it returns, per call, the start time, the
completion time and the RDAP result of the task. -/

/-- The fixed cool-down of `withRdapLock`: `setTimeout(resolve, 500)`. -/
def rdapCooldownMs : Nat := 500

/-- One call to `runRdapLookup` (v. with lock): its arrival time at the
lock, the duration of the wrapped fetch task, and the fetch outcome. -/
structure RdapCall where
  arrival : Nat
  duration : Nat
  resp : RdapResp
  deriving DecidableEq, Repr

/-- Timed semantics of a FIFO chain of calls through `withRdapLock`,
starting with the lock free at time `free`.  Per call: `(start, finish,
result)` where `start = max arrival free`, `finish = start + duration`,
and the lock is next free at `finish + rdapCooldownMs`. -/
def runRdapLocked (free : Nat) : List RdapCall → List (Nat × Nat × RdapStatus)
  | [] => []
  | c :: rest =>
      let s := max c.arrival free
      let e := s + c.duration
      (s, e, rdapResultOf c.resp) :: runRdapLocked (e + rdapCooldownMs) rest

/-! ## Stats aggregator

`recomputeStats` (full rescan, used at hydration) and `adjustStats`
(incremental deltas applied on every store mutation) from the hook. -/

/-- The running counters kept in `statsRef`.  JS numbers, as `Int`. -/
structure Stats where
  total : Int
  queueCount : Int
  totalAvailable : Int
  totalTaken : Int
  totalChecked : Int
  takenOverall : Int
  deriving DecidableEq, Repr

/-- The all-zero stats object. -/
def zeroStats : Stats :=
  { total := 0, queueCount := 0, totalAvailable := 0, totalTaken := 0,
    totalChecked := 0, takenOverall := 0 }

/-- One iteration of the `snapshot.forEach` loop of `recomputeStats`. -/
def statsBump (s : Stats) (record : DomainRecord) : Stats :=
  { s with
    queueCount := s.queueCount +
      (if record.status = DomainStatus.queued ∨ record.status = DomainStatus.checking then 1 else 0),
    totalAvailable := s.totalAvailable +
      (if record.status = DomainStatus.available then 1 else 0),
    totalTaken := s.totalTaken +
      (if record.status = DomainStatus.taken then 1 else 0),
    totalChecked := s.totalChecked +
      (if record.status ≠ DomainStatus.queued ∧ record.status ≠ DomainStatus.checking then 1 else 0),
    takenOverall := s.takenOverall +
      (if record.status = DomainStatus.taken ∨ record.rdapStatus = RdapStatus.taken then 1 else 0) }

/-- `recomputeStats(snapshot)`: one pass over the snapshot, plus
`total: snapshot.length`. -/
def recomputeStats (snapshot : List DomainRecord) : Stats :=
  { snapshot.foldl statsBump zeroStats with total := (snapshot.length : Int) }

/-- The inner `applyDelta(record, delta)` of `adjustStats`: adds `delta` to
every counter whose predicate `record` satisfies (`total` is handled
separately by `upsertRecords`). -/
def applyDelta (s : Stats) (record : DomainRecord) (delta : Int) : Stats :=
  { s with
    queueCount := s.queueCount +
      (if record.status = DomainStatus.queued ∨ record.status = DomainStatus.checking then delta else 0),
    totalAvailable := s.totalAvailable +
      (if record.status = DomainStatus.available then delta else 0),
    totalTaken := s.totalTaken +
      (if record.status = DomainStatus.taken then delta else 0),
    totalChecked := s.totalChecked +
      (if record.status ≠ DomainStatus.queued ∧ record.status ≠ DomainStatus.checking then delta else 0),
    takenOverall := s.takenOverall +
      (if record.status = DomainStatus.taken ∨ record.rdapStatus = RdapStatus.taken then delta else 0) }

/-- `adjustStats(prev, next)`: decrement for the previous record when
present, increment for the new one. -/
def adjustStats (s : Stats) (prev : Option DomainRecord) (next : DomainRecord) : Stats :=
  let s1 := match prev with
    | some p => applyDelta s p (-1)
    | none => s
  applyDelta s1 next 1

/-! ## The shared mutable state of `useDomainChecker`

`recordsRef`, `indexRef`, `statsRef`, the two queues with their membership
sets, the two in-flight sets, and the stop/running flags.  The objects
keyed by `"dns"`/`"rdap"` become functions out of `Checker`. -/

/-- The hook's mutable state. -/
structure St where
  records : List DomainRecord
  index : List (String × Nat)
  stats : Stats
  queue : Checker → List String
  qset : Checker → Finset String
  inFlight : Checker → Finset String
  stopRequested : Checker → Bool
  running : Checker → Bool
  statusMessage : String

/-- `indexRef.current.get(id)`: position of the record with this id. -/
def indexFind (index : List (String × Nat)) (id : String) : Option Nat :=
  (index.find? (fun p => p.1 = id)).map (fun p => p.2)

/-- The record currently stored for `id`, read through the index. -/
def lookupRecord (st : St) (id : String) : Option DomainRecord :=
  match indexFind st.index id with
  | some i => st.records.get? i
  | none => none

/-- One iteration of the `updates.forEach` loop of `upsertRecords`:
replace-or-append into `records`/`index`, apply the stats delta, and
maintain both dedup queues. -/
def upsertOne (st : St) (item : DomainRecord) : St :=
  let prev : Option DomainRecord := lookupRecord st item.id
  let stored :=
    match indexFind st.index item.id with
    | some i => { st with records := st.records.set i item }
    | none =>
        { st with records := st.records ++ [item],
                  index := st.index ++ [(item.id, st.records.length)],
                  stats := { st.stats with total := st.stats.total + 1 } }
  let st1 := { stored with stats := adjustStats stored.stats prev item }
  let prevQueued : Bool := match prev with
    | some p => p.status = DomainStatus.queued
    | none => false
  let dnsSet1 :=
    if prevQueued && !(item.status = DomainStatus.queued : Bool) then
      removeFromQueue (st1.qset Checker.dns) item.id
    else st1.qset Checker.dns
  let (dnsQ2, dnsSet2) :=
    if item.status = DomainStatus.queued then
      addToQueue (st1.queue Checker.dns) dnsSet1 item.id
    else (st1.queue Checker.dns, dnsSet1)
  let prevCand : Bool := match prev with
    | some p => isRdapCandidate p
    | none => false
  let nextCand := isRdapCandidate item
  let rdapSet1 :=
    if prevCand && !nextCand then removeFromQueue (st1.qset Checker.rdap) item.id
    else st1.qset Checker.rdap
  let (rdapQ2, rdapSet2) :=
    if nextCand then addToQueue (st1.queue Checker.rdap) rdapSet1 item.id
    else (st1.queue Checker.rdap, rdapSet1)
  { st1 with
    queue := Function.update (Function.update st1.queue Checker.dns dnsQ2) Checker.rdap rdapQ2,
    qset := Function.update (Function.update st1.qset Checker.dns dnsSet2) Checker.rdap rdapSet2 }

/-- `upsertRecords(updates)` (its synchronous mutation part; the trailing
`await putRecords(updates)` only persists). -/
def upsertRecords (st : St) (updates : List DomainRecord) : St :=
  if updates.isEmpty then st else updates.foldl upsertOne st

/-- The `while (queueRef.length)` loop of `popCandidate`: shift ids off the
head; skip ids no longer in the membership set; skip (but consume) ids
currently in-flight; drop ids with no index entry; return the first live
record, clearing its membership.  Returns the candidate (if any) together
with the remaining array and the updated membership set. -/
def popLoop (inFlight : Finset String) (index : List (String × Nat))
    (records : List DomainRecord) :
    List String → Finset String → Option DomainRecord × List String × Finset String
  | [], qset => (none, [], qset)
  | id :: rest, qset =>
      if id ∉ qset then popLoop inFlight index records rest qset
      else if id ∈ inFlight then popLoop inFlight index records rest qset
      else
        match indexFind index id with
        | none => popLoop inFlight index records rest (qset.erase id)
        | some i =>
            match records.get? i with
            | some r => (some r, rest, qset.erase id)
            | none => (none, rest, qset.erase id)

/-- `popCandidate` of `startChecker(checker)`: runs `popLoop` on this
stage's queue and writes back the consumed array and membership set. -/
def popCandidate (c : Checker) (st : St) : Option DomainRecord × St :=
  let out := popLoop (st.inFlight c) st.index st.records (st.queue c) (st.qset c)
  (out.1, { st with queue := Function.update st.queue c out.2.1,
                    qset := Function.update st.qset c out.2.2 })

/-- `stopChecker(checker)`: no-op unless the stage is running; otherwise
set the stage's stop flag and the status message. -/
def stopChecker (st : St) (c : Checker) : St :=
  if st.running c then
    { st with
      stopRequested := Function.update st.stopRequested c true,
      statusMessage :=
        if c = Checker.dns then
          "DNS stop requested. Finishing current in-flight lookups."
        else
          "RDAP stop requested. Finishing current in-flight lookups." }
  else st

/-- `handleClear`: request both stages to stop, drop the store, the index
and the stats.  The queues, membership sets and in-flight sets are *not*
cleared by the source. -/
def handleClear (st : St) : St :=
  { st with
    stopRequested := fun _ => true,
    running := fun _ => false,
    records := [],
    index := [],
    stats := zeroStats,
    statusMessage := "History cleared" }

/-- The empty initial state (fresh app over an empty IndexedDB). -/
def initSt : St :=
  { records := [], index := [], stats := zeroStats,
    queue := fun _ => [], qset := fun _ => ∅, inFlight := fun _ => ∅,
    stopRequested := fun _ => false, running := fun _ => true,
    statusMessage := "Idle" }

/-! ## Sequential store operations (for the stats-refinement claim)

`enqueueDomains` builds fresh `"queued"` records and hands them to
`upsertRecords`; worker write-backs are single-item `upsertRecords` calls;
`handleClear` resets the store. -/

/-- A store operation. -/
inductive Op
  | enqueue (newRecords : List DomainRecord)
  | upsert (updates : List DomainRecord)
  | clear

/-- Apply one operation. -/
def applyOp (st : St) : Op → St
  | Op.enqueue newRecords => upsertRecords st newRecords
  | Op.upsert updates => upsertRecords st updates
  | Op.clear => handleClear st

/-- Apply a sequence of operations from the left. -/
def applyOps (ops : List Op) (st : St) : St := ops.foldl applyOp st

/-! ## The two worker pools as a small-step transition system

`startChecker(checker)` launches `BATCH_SIZE` workers per stage.  Between
two `await`s a worker runs synchronously, so its execution decomposes into
three atomic blocks:

* **claim** — `processOne` up to its first `await`: the stop-flag check,
  `popCandidate()`, `inFlightRef.add`, and (dns only) the synchronous part
  of `upsertRecords([{...candidate, status: "checking"}])`;
* **write-back** — the synchronous part of `upsertRecords([processed])`
  after the external lookup resolved;
* **finish** — `inFlightRef.delete(candidate.id)` after the write-back's
  `await` resolved.

A worker is `idle` between work items, `working r` after claiming record
`r`, and `wrote r` after writing the lookup result back but before
releasing `r` from the in-flight set. -/

/-- The phase of one worker. -/
inductive Phase
  | idle
  | working (r : DomainRecord)
  | wrote (r : DomainRecord)
  deriving DecidableEq, Repr

/-- A configuration: the shared hook state plus each worker's phase,
per stage. -/
structure Config where
  st : St
  phase : Checker → Fin BATCH_SIZE → Phase

/-- `inFlightRef.current[checker].add(id)`. -/
def addFlight (st : St) (c : Checker) (id : String) : St :=
  { st with inFlight := Function.update st.inFlight c (insert id (st.inFlight c)) }

/-- `inFlightRef.current[checker].delete(id)`. -/
def dropFlight (st : St) (c : Checker) (id : String) : St :=
  { st with inFlight := Function.update st.inFlight c ((st.inFlight c).erase id) }

/-- Update the phase of worker `w` of stage `c`. -/
def updPhase (phase : Checker → Fin BATCH_SIZE → Phase) (c : Checker)
    (w : Fin BATCH_SIZE) (p : Phase) : Checker → Fin BATCH_SIZE → Phase :=
  Function.update phase c (Function.update (phase c) w p)

/-- One atomic step of the system.  The flag selects the model: with
`env := true` the environment may additionally run an arbitrary
`upsertRecords` call (covering `enqueueDomains` and any external
mutation); with `env := false` only worker steps and stop requests run. -/
inductive Step : Bool → Config → Config → Prop
  | claimDns (env : Bool) (cfg : Config) (w : Fin BATCH_SIZE) (r : DomainRecord) (st' : St)
      (hidle : cfg.phase Checker.dns w = Phase.idle)
      (hstop : cfg.st.stopRequested Checker.dns = false)
      (hpop : popCandidate Checker.dns cfg.st = (some r, st')) :
      Step env cfg
        { st := upsertOne (addFlight st' Checker.dns r.id)
                  { r with status := DomainStatus.checking },
          phase := updPhase cfg.phase Checker.dns w (Phase.working r) }
  | claimRdap (env : Bool) (cfg : Config) (w : Fin BATCH_SIZE) (r : DomainRecord) (st' : St)
      (hidle : cfg.phase Checker.rdap w = Phase.idle)
      (hstop : cfg.st.stopRequested Checker.rdap = false)
      (hpop : popCandidate Checker.rdap cfg.st = (some r, st')) :
      Step env cfg
        { st := addFlight st' Checker.rdap r.id,
          phase := updPhase cfg.phase Checker.rdap w (Phase.working r) }
  | claimNone (env : Bool) (cfg : Config) (c : Checker) (w : Fin BATCH_SIZE) (st' : St)
      (hidle : cfg.phase c w = Phase.idle)
      (hstop : cfg.st.stopRequested c = false)
      (hpop : popCandidate c cfg.st = (none, st')) :
      Step env cfg { cfg with st := st' }
  | writeBackDns (env : Bool) (cfg : Config) (w : Fin BATCH_SIZE) (r : DomainRecord)
      (resp : DnsResp) (rdap : RdapResp) (now : Nat)
      (hw : cfg.phase Checker.dns w = Phase.working r) :
      Step env cfg
        { st := upsertOne cfg.st
                  (runDnsLookup { r with status := DomainStatus.checking } resp rdap now),
          phase := updPhase cfg.phase Checker.dns w (Phase.wrote r) }
  | writeBackRdap (env : Bool) (cfg : Config) (w : Fin BATCH_SIZE) (r : DomainRecord)
      (resp : RdapResp) (now : Nat)
      (hw : cfg.phase Checker.rdap w = Phase.working r) :
      Step env cfg
        { st := upsertOne cfg.st (runRdapOnly r resp now),
          phase := updPhase cfg.phase Checker.rdap w (Phase.wrote r) }
  | finish (env : Bool) (cfg : Config) (c : Checker) (w : Fin BATCH_SIZE) (r : DomainRecord)
      (hw : cfg.phase c w = Phase.wrote r) :
      Step env cfg
        { st := dropFlight cfg.st c r.id,
          phase := updPhase cfg.phase c w Phase.idle }
  | envUpsert (cfg : Config) (updates : List DomainRecord) :
      Step true cfg { cfg with st := upsertRecords cfg.st updates }
  | stopReq (env : Bool) (cfg : Config) (c : Checker) :
      Step env cfg { cfg with st := stopChecker cfg.st c }

/-- The configuration `startChecker` establishes on a fresh state: empty
store, cleared in-flight sets, cleared stop flags, all workers idle. -/
def initConfig : Config :=
  { st := initSt, phase := fun _ _ => Phase.idle }

/-- Reachable configurations (environment upserts allowed). -/
def Reach (cfg : Config) : Prop :=
  Relation.ReflTransGen (Step true) initConfig cfg

/-- Execution fragments consisting of worker steps and stop requests only
(no environment mutation). -/
def SchedSteps (cfg cfg' : Config) : Prop :=
  Relation.ReflTransGen (Step false) cfg cfg'

/-- The key currently claimed by worker `w` of stage `c`, if any: the id
of the record it popped, from claim until release. -/
def heldBy (cfg : Config) (c : Checker) (w : Fin BATCH_SIZE) : Option String :=
  match cfg.phase c w with
  | Phase.idle => none
  | Phase.working r => some r.id
  | Phase.wrote r => some r.id

/-- The state invariant of the scheduler, established at `initConfig` and
preserved by every step:

* the index is an accurate, duplicate-free map from record id to position;
* a key in the dns membership set denotes a stored `"queued"` record;
* a key in the rdap membership set denotes a stored record satisfying
  `isRdapCandidate`;
* a stage's in-flight set is exactly the set of keys claimed by its
  workers, and no key is claimed by two workers of a stage. -/
structure Inv (cfg : Config) : Prop where
  keysNodup : (cfg.st.index.map Prod.fst).Nodup
  valsNodup : (cfg.st.index.map Prod.snd).Nodup
  accurate : ∀ p ∈ cfg.st.index, ∃ r, cfg.st.records.get? p.2 = some r ∧ r.id = p.1
  qsetDns : ∀ id ∈ cfg.st.qset Checker.dns,
    ∃ r, lookupRecord cfg.st id = some r ∧ r.status = DomainStatus.queued
  qsetRdap : ∀ id ∈ cfg.st.qset Checker.rdap,
    ∃ r, lookupRecord cfg.st id = some r ∧ isRdapCandidate r = true
  flightIff : ∀ c id, id ∈ cfg.st.inFlight c ↔ ∃ w, heldBy cfg c w = some id
  flightInj : ∀ c w w' id, heldBy cfg c w = some id → heldBy cfg c w' = some id → w = w'

/-- An item the resolve stage settled as `"taken"`: its stored record is
`status = "taken"`, `rdapStatus = "not_checked"`, and no worker holds its
key in-flight. -/
def TakenSettled (st : St) (id : String) : Prop :=
  (∃ r, lookupRecord st id = some r ∧ r.status = DomainStatus.taken ∧
     r.rdapStatus = RdapStatus.not_checked) ∧
  ∀ c, id ∉ st.inFlight c

/-! # Theorems -/

/-! ## C5 — dedup queue: enqueueing N times leaves one entry -/

theorem addToQueue_mem_self (queue : List String) (set : Finset String) (id : String) :
    id ∈ (addToQueue queue set id).2 := by
  unfold addToQueue
  split
  · assumption
  · exact Finset.mem_insert_self _ _

theorem addToQueue_idem (queue : List String) (set : Finset String) (id : String) :
    addToQueue (addToQueue queue set id).1 (addToQueue queue set id).2 id =
      addToQueue queue set id := by
  unfold addToQueue
  by_cases h : id ∈ set
  · simp [h]
  · simp [h]

theorem addToQueue_iterate_eq (queue : List String) (set : Finset String) (id : String)
    {n : Nat} (hn : 1 ≤ n) :
    (fun p : List String × Finset String => addToQueue p.1 p.2 id)^[n] (queue, set) =
      addToQueue queue set id := by
  obtain ⟨m, rfl⟩ : ∃ m, n = m + 1 := ⟨n - 1, by omega⟩
  rw [Function.iterate_succ_apply]
  exact @Function.iterate_fixed _
    (fun p : List String × Finset String => addToQueue p.1 p.2 id)
    (addToQueue queue set id) (addToQueue_idem queue set id) m

/-- **C5** (confirmed).  `addToQueue` is a no-op when the key is already in
the membership set, and otherwise appends the key to the tail of the array
and adds it to the set; consequently enqueueing the same key `n ≥ 1` times
into a queue that does not yet hold it leaves exactly one entry for it in
the backing array (and the key in the membership set). -/
theorem enqueue_dedup (queue : List String) (set : Finset String) (id : String) :
    (id ∈ set → addToQueue queue set id = (queue, set)) ∧
    (id ∉ set → addToQueue queue set id = (queue ++ [id], insert id set)) ∧
    (∀ n : Nat, 1 ≤ n → id ∉ set → queue.count id = 0 →
      (((fun p : List String × Finset String =>
          addToQueue p.1 p.2 id)^[n] (queue, set)).1.count id = 1 ∧
        id ∈ ((fun p : List String × Finset String =>
          addToQueue p.1 p.2 id)^[n] (queue, set)).2)) := by
  refine ⟨fun h => by simp [addToQueue, h], fun h => by simp [addToQueue, h], ?_⟩
  intro n hn hmem hcount
  rw [addToQueue_iterate_eq queue set id hn]
  constructor
  · simp [addToQueue, hmem, List.count_append, hcount]
  · exact addToQueue_mem_self queue set id

/-- Witness for **C5**: enqueueing `"a.test"` three times into the empty
queue leaves exactly one entry. -/
theorem enqueue_dedup_witness :
    (((fun p : List String × Finset String =>
        addToQueue p.1 p.2 "a.test")^[3] ([], ∅)).1.count "a.test" = 1 ∧
      "a.test" ∈ ((fun p : List String × Finset String =>
        addToQueue p.1 p.2 "a.test")^[3] ([], ∅)).2) :=
  (enqueue_dedup [] ∅ "a.test").2.2 3 (by decide) (by decide) (by decide)

/-! ## C10 — `normalizeDomain` is idempotent and well-formed

Character-level helpers first: a character of the class `[a-z0-9.-]` is
not JS whitespace, is fixed by `toLower`, and is none of the
delimiter characters the sanitizer looks for. -/

theorem isJsSpace_of_domainChar {c : Char} (h : isDomainChar c = true) :
    isJsSpace c = false := by
  rw [isDomainChar, decide_eq_true_eq] at h
  rw [isJsSpace, decide_eq_false_iff_not]
  rcases h with ⟨h1, h2⟩ | ⟨h1, h2⟩ | rfl | rfl
  · rintro (rfl | rfl | rfl | rfl | rfl | rfl | rfl | rfl | ⟨ha, hb⟩ | rfl | rfl | rfl | rfl |
      rfl | rfl) <;>
      first
        | exact absurd h1 (by decide)
        | exact absurd h2 (by decide)
        | exact absurd (ha.trans h2) (by decide)
  · rintro (rfl | rfl | rfl | rfl | rfl | rfl | rfl | rfl | ⟨ha, hb⟩ | rfl | rfl | rfl | rfl |
      rfl | rfl) <;>
      first
        | exact absurd h1 (by decide)
        | exact absurd h2 (by decide)
        | exact absurd (ha.trans h2) (by decide)
  · decide
  · decide

theorem toLower_of_domainChar {c : Char} (h : isDomainChar c = true) :
    c.toLower = c := by
  rw [isDomainChar, decide_eq_true_eq] at h
  rw [Char.toLower]
  rcases h with ⟨h1, h2⟩ | ⟨h1, h2⟩ | rfl | rfl
  · rw [if_neg]
    intro ⟨ha, hb⟩
    have h1' : 97 ≤ c.toNat := h1
    omega
  · rw [if_neg]
    intro ⟨ha, hb⟩
    have h2' : c.toNat ≤ 57 := h2
    omega
  · decide
  · decide

theorem domainChar_ne_delims {c : Char} (h : isDomainChar c = true) :
    c ≠ ':' ∧ c ≠ '/' ∧ c ≠ '?' ∧ c ≠ '#' := by
  refine ⟨?_, ?_, ?_, ?_⟩ <;> rintro rfl <;> exact absurd h (by decide)

theorem dropWhile_eq_self_of_forall_neg {α : Type} {p : α → Bool} {l : List α}
    (h : ∀ x ∈ l, p x = false) : l.dropWhile p = l := by
  cases l with
  | nil => rfl
  | cons a l => simp [List.dropWhile_cons, h a (List.mem_cons_self a l)]

theorem dropWhile_eq_self_of_head {α : Type} {p : α → Bool} {l : List α}
    (h : ∀ a, l.head? = some a → p a = false) : l.dropWhile p = l := by
  cases l with
  | nil => rfl
  | cons a l => simp [List.dropWhile_cons, h a rfl]

theorem trimChars_eq_self {l : List Char} (h : ∀ c ∈ l, isDomainChar c = true) :
    trimChars l = l := by
  unfold trimChars
  rw [dropWhile_eq_self_of_forall_neg (fun x hx => isJsSpace_of_domainChar (h x hx)),
    dropWhile_eq_self_of_forall_neg, List.reverse_reverse]
  intro x hx
  exact isJsSpace_of_domainChar (h x (List.mem_reverse.mp hx))

theorem map_toLower_eq_self {l : List Char} (h : ∀ c ∈ l, isDomainChar c = true) :
    l.map Char.toLower = l := by
  have e : l.map Char.toLower = l.map id :=
    List.map_congr_left (fun c hc => toLower_of_domainChar (h c hc))
  rwa [List.map_id] at e

theorem stripProtocol_eq_self {l : List Char} (h : ∀ c ∈ l, isDomainChar c = true) :
    stripProtocol l = l := by
  simp only [stripProtocol]
  rw [if_neg]
  rintro ⟨hne, htake⟩
  have hcolon : ':' ∈ l := by
    have hmem : ':' ∈
        List.take 3 (List.drop (List.takeWhile (fun c => decide ('a' ≤ c ∧ c ≤ 'z')) l).length l) := by
      rw [htake]
      simp
    exact List.mem_of_mem_drop (List.take_subset 3 _ hmem)
  exact absurd (h ':' hcolon) (by decide)

theorem stripSlashes_eq_self {l : List Char} (h : ∀ c ∈ l, isDomainChar c = true) :
    stripSlashes l = l := by
  simp only [stripSlashes]
  rw [if_neg]
  intro htake
  have hslash : '/' ∈ l := by
    refine List.take_subset 2 _ ?_
    rw [htake]
    simp
  exact absurd (h '/' hslash) (by decide)

theorem dot_trimmed_head_last (s4 : List Char)
    (hne : (List.dropWhile (fun x => decide (x = '.'))
        (List.dropWhile (fun x => decide (x = '.')) s4).reverse).reverse ≠ []) :
    (List.dropWhile (fun x => decide (x = '.'))
        (List.dropWhile (fun x => decide (x = '.')) s4).reverse).reverse.head? ≠ some '.' ∧
    (List.dropWhile (fun x => decide (x = '.'))
        (List.dropWhile (fun x => decide (x = '.')) s4).reverse).reverse.getLast? ≠ some '.' := by
  have hrdrop : (List.dropWhile (fun x => decide (x = '.'))
      (List.dropWhile (fun x => decide (x = '.')) s4).reverse).reverse
      = List.rdropWhile (fun x => decide (x = '.'))
          (List.dropWhile (fun x => decide (x = '.')) s4) := rfl
  rw [hrdrop] at hne ⊢
  constructor
  · intro hhead
    obtain ⟨t, ht⟩ := List.rdropWhile_prefix (fun x => decide (x = '.'))
      (List.dropWhile (fun x => decide (x = '.')) s4)
    have hh2 : (List.dropWhile (fun x => decide (x = '.')) s4).head? = some '.' := by
      rw [← ht, List.head?_append, hhead]
      rfl
    have hmatch := List.head?_dropWhile_not (fun x => decide (x = '.')) s4
    rw [hh2] at hmatch
    simp at hmatch
  · intro hlast
    have hg := List.rdropWhile_last_not (fun x => decide (x = '.'))
      (List.dropWhile (fun x => decide (x = '.')) s4) hne
    have hsome := List.getLast?_eq_getLast _ hne
    rw [hsome] at hlast
    have heq : (List.rdropWhile (fun x => decide (x = '.'))
        (List.dropWhile (fun x => decide (x = '.')) s4)).getLast hne = '.' :=
      Option.some.inj hlast
    rw [heq] at hg
    simp at hg

theorem normalizeChars_some_spec {v l : List Char} (h : normalizeChars v = some l) :
    l ≠ [] ∧ (∀ c ∈ l, isDomainChar c = true) ∧ '.' ∈ l ∧
    l.head? ≠ some '.' ∧ l.getLast? ≠ some '.' := by
  unfold normalizeChars at h
  split at h
  · exact absurd h (by simp)
  simp only [] at h
  split at h
  · exact absurd h (by simp)
  split at h
  · exact absurd h (by simp)
  next hs5 =>
  split at h
  next hdot =>
    split at h
    next hall =>
      have hl := Option.some.inj h
      subst hl
      refine ⟨hs5, ?_, hdot, (dot_trimmed_head_last _ hs5).1, (dot_trimmed_head_last _ hs5).2⟩
      intro c hc
      exact List.all_eq_true.mp hall c hc
    next => exact absurd h (by simp)
  next hdot =>
    split at h
    next hall =>
      have hl := Option.some.inj h
      subst hl
      have hp := dot_trimmed_head_last _ hs5
      refine ⟨by simp, ?_, ?_, ?_, ?_⟩
      · intro c hc
        exact List.all_eq_true.mp hall c hc
      · simp
      · rw [List.head?_append]
        cases hh : List.head? ((List.dropWhile (fun x => decide (x = '.'))
            (List.dropWhile (fun x => decide (x = '.'))
              (List.takeWhile (fun c => !decide (c = '/' ∨ c = '?' ∨ c = '#'))
                (stripSlashes
                  (stripProtocol
                    (List.filter (fun c => !isJsSpace c)
                      (List.map Char.toLower (trimChars v))))))).reverse).reverse) with
        | none =>
            rw [List.head?_eq_none_iff] at hh
            exact absurd hh hs5
        | some a =>
            have ha : a ≠ '.' := by
              intro rfl_a
              rw [rfl_a] at hh
              exact hp.1 hh
            simp [Option.or, ha]
      · rw [List.getLast?_append]
        simp
    next => exact absurd h (by simp)

theorem normalizeChars_fixed {l : List Char} (hne : l ≠ [])
    (hall : ∀ c ∈ l, isDomainChar c = true) (hdot : '.' ∈ l)
    (hhead : l.head? ≠ some '.') (hlast : l.getLast? ≠ some '.') :
    normalizeChars l = some l := by
  have e_trim : trimChars l = l := trimChars_eq_self hall
  have e_map : l.map Char.toLower = l := map_toLower_eq_self hall
  have e_filter : l.filter (fun c => !isJsSpace c) = l := by
    rw [List.filter_eq_self]
    intro a ha
    simp [isJsSpace_of_domainChar (hall a ha)]
  have e_prot : stripProtocol l = l := stripProtocol_eq_self hall
  have e_slash : stripSlashes l = l := stripSlashes_eq_self hall
  have e_take : l.takeWhile (fun c => !decide (c = '/' ∨ c = '?' ∨ c = '#')) = l := by
    rw [List.takeWhile_eq_self_iff]
    intro x hx
    obtain ⟨h1, h2, h3, h4⟩ := domainChar_ne_delims (hall x hx)
    simp [h2, h3, h4]
  have e_drop : l.dropWhile (fun x => decide (x = '.')) = l := by
    apply dropWhile_eq_self_of_head
    intro a ha
    have : a ≠ '.' := by
      intro heq
      rw [heq] at ha
      exact hhead ha
    simp [this]
  have e_rdrop : (l.reverse.dropWhile (fun x => decide (x = '.'))).reverse = l := by
    have hform : (l.reverse.dropWhile (fun x => decide (x = '.'))).reverse
        = l.rdropWhile (fun x => decide (x = '.')) := rfl
    rw [hform, List.rdropWhile_eq_self_iff]
    intro hl hp
    apply hlast
    rw [List.getLast?_eq_getLast l hl]
    simp only [decide_eq_true_eq] at hp
    rw [hp]
  unfold normalizeChars
  rw [if_neg hne]
  simp only [e_trim, e_map, e_filter, e_prot, e_slash, e_take, e_drop, e_rdrop]
  rw [if_neg hne, if_pos hdot, if_pos (List.all_eq_true.mpr hall), if_neg hne]

/-- **C10** (confirmed).  Whenever `normalizeDomain` returns a value `d`,
`d` is nonempty, matches the character class `[a-z0-9.-]`, contains a dot,
has no leading or trailing dot, and is a fixed point of `normalizeDomain`. -/
theorem normalizeDomain_idempotent (s d : String) (h : normalizeDomain s = some d) :
    d ≠ "" ∧ (∀ c ∈ d.data, isDomainChar c = true) ∧ '.' ∈ d.data ∧
    d.data.head? ≠ some '.' ∧ d.data.getLast? ≠ some '.' ∧
    normalizeDomain d = some d := by
  unfold normalizeDomain at h
  cases hn : normalizeChars s.data with
  | none =>
      rw [hn] at h
      exact absurd h (by simp)
  | some l =>
      rw [hn] at h
      have hd : String.mk l = d := by
        simpa using h
      obtain ⟨p1, p2, p3, p4, p5⟩ := normalizeChars_some_spec hn
      subst hd
      refine ⟨?_, p2, p3, p4, p5, ?_⟩
      · intro he
        apply p1
        have : (String.mk l).data = ("" : String).data := by rw [he]
        simpa using this
      · unfold normalizeDomain
        rw [show (String.mk l).data = l from rfl, normalizeChars_fixed p1 p2 p3 p4 p5]
        rfl

/-- Witness for **C10**: normalizing `"  HTTPS://WwW.Foo-Bar.com/path?q=1  "`
yields `"www.foo-bar.com"`, which satisfies all the stated properties and is
itself a fixed point. -/
theorem normalizeDomain_idempotent_witness :
    "www.foo-bar.com" ≠ "" ∧
    (∀ c ∈ ("www.foo-bar.com" : String).data, isDomainChar c = true) ∧
    '.' ∈ ("www.foo-bar.com" : String).data ∧
    ("www.foo-bar.com" : String).data.head? ≠ some '.' ∧
    ("www.foo-bar.com" : String).data.getLast? ≠ some '.' ∧
    normalizeDomain "www.foo-bar.com" = some "www.foo-bar.com" :=
  normalizeDomain_idempotent "  HTTPS://WwW.Foo-Bar.com/path?q=1  " "www.foo-bar.com" (by rfl)


/-! ## C6 — the RDAP rate limiter serializes calls with a 500 ms cool-down

`rdapLock` is a single module-level promise chain shared by every caller
of `runRdapLookup` — both the resolve-stage's inline RDAP lookup and the
verify-stage's `runRdapOnly` go through it, so the schedule below covers
all RDAP calls regardless of stage. -/

theorem runRdapLocked_start_ge (free : Nat) (calls : List RdapCall) :
    ∀ e ∈ runRdapLocked free calls, free ≤ e.1 := by
  induction calls generalizing free with
  | nil => intro e he; simp [runRdapLocked] at he
  | cons c rest ih =>
      intro e he
      simp only [runRdapLocked, List.mem_cons] at he
      rcases he with rfl | he
      · exact le_max_right _ _
      · have hrec := ih (max c.arrival free + c.duration + rdapCooldownMs) e he
        omega

theorem runRdapLocked_pairwise (free : Nat) (calls : List RdapCall) :
    List.Pairwise (fun p q => p.2.1 + rdapCooldownMs ≤ q.1)
      (runRdapLocked free calls) := by
  induction calls generalizing free with
  | nil => exact List.Pairwise.nil
  | cons c rest ih =>
      rw [runRdapLocked, List.pairwise_cons]
      refine ⟨?_, ih _⟩
      intro q hq
      exact runRdapLocked_start_ge _ rest q hq

/-- **C6** (confirmed).  Calls chained through `withRdapLock` (modelled by
`runRdapLocked`, starting from any lock-free time and any arrival order):
every call's reported status is exactly the task's RDAP result; any two
scheduled calls are separated by the full `rdapCooldownMs = 500` cool-down
(each later call starts no earlier than 500 ms after the previous task
completed); and no two distinct calls are ever running at the same
instant - at most one RDAP task is admitted at a time. -/
theorem rdap_rate_limiter (free : Nat) (calls : List RdapCall) :
    ((runRdapLocked free calls).map (fun e => e.2.2) =
      calls.map (fun c => rdapResultOf c.resp)) ∧
    List.Pairwise (fun p q => p.2.1 + rdapCooldownMs ≤ q.1)
      (runRdapLocked free calls) ∧
    (∀ (t : Nat) (i j : Fin (runRdapLocked free calls).length), i ≠ j →
      ¬(((runRdapLocked free calls).get i).1 ≤ t ∧
          t < ((runRdapLocked free calls).get i).2.1 ∧
        ((runRdapLocked free calls).get j).1 ≤ t ∧
          t < ((runRdapLocked free calls).get j).2.1)) := by
  refine ⟨?_, runRdapLocked_pairwise free calls, ?_⟩
  · induction calls generalizing free with
    | nil => rfl
    | cons c rest ih => simp [runRdapLocked, ih]
  · intro t i j hij ⟨hi1, hi2, hj1, hj2⟩
    have hpw := (List.pairwise_iff_get).mp (runRdapLocked_pairwise free calls)
    rcases lt_or_gt_of_ne hij with hlt | hgt
    · have := hpw i j hlt
      have hcd : rdapCooldownMs = 500 := rfl
      omega
    · have := hpw j i hgt
      have hcd : rdapCooldownMs = 500 := rfl
      omega

/-- Witness for **C6**: two calls arriving at times 0 and 10 with task
durations 100 and 50; the second is admitted only at `t = 600`, i.e.
500 ms after the first completes, and the failure of the second maps to
`"unknown"`. -/
theorem rdap_rate_limiter_witness :
    runRdapLocked 0 [⟨0, 100, RdapResp.http 404⟩, ⟨10, 50, RdapResp.failure⟩] =
      [(0, 100, RdapStatus.available), (600, 650, RdapStatus.unknown)] ∧
    List.Pairwise (fun p q => p.2.1 + rdapCooldownMs ≤ q.1)
      (runRdapLocked 0 [⟨0, 100, RdapResp.http 404⟩, ⟨10, 50, RdapResp.failure⟩]) :=
  ⟨by decide, (rdap_rate_limiter 0 _).2.1⟩

/-! ## C2 — failure semantics

A resolve-stage transport failure makes the item `"unknown"` and the item
is never re-enqueued.  A verify-stage transport failure makes `rdapStatus`
`"unknown"` — but `"unknown"` is *not* in `rdapFinalStatuses`, so the item
still satisfies `isRdapCandidate` and the write-back `upsertRecords` adds
it back into the verify queue: failed verify lookups are retried. -/

theorem upsertOne_rdap_mem_of_candidate (st : St) (item : DomainRecord)
    (h : isRdapCandidate item = true) :
    item.id ∈ (upsertOne st item).qset Checker.rdap := by
  unfold upsertOne
  cases hidx : indexFind st.index item.id <;>
    simp only [hidx, h, Function.update_same, if_true] <;>
    exact addToQueue_mem_self _ _ _

theorem upsertOne_rdap_not_mem (st : St) (item : DomainRecord)
    (hmem : item.id ∉ st.qset Checker.rdap) (h : isRdapCandidate item = false) :
    item.id ∉ (upsertOne st item).qset Checker.rdap := by
  unfold upsertOne
  cases hidx : indexFind st.index item.id <;>
    simp only [hidx, h, Function.update_same, Bool.false_eq_true, if_false] <;>
    split <;>
    first
      | exact fun hc => hmem (Finset.mem_of_mem_erase hc)
      | exact hmem

theorem upsertOne_dns_not_mem (st : St) (item : DomainRecord)
    (hmem : item.id ∉ st.qset Checker.dns) (h : ¬item.status = DomainStatus.queued) :
    item.id ∉ (upsertOne st item).qset Checker.dns := by
  unfold upsertOne
  cases hidx : indexFind st.index item.id <;>
    simp only [hidx, h, Function.update_same, if_false] <;>
    rw [Function.update_noteq (by decide : Checker.dns ≠ Checker.rdap),
      Function.update_same] <;>
    split <;>
    first
      | exact fun hc => hmem (Finset.mem_of_mem_erase hc)
      | exact hmem

/-- Counterexample to **C2** as stated.  An `"available"` item whose RDAP
lookup fails at the transport level gets `rdapStatus = "unknown"`, and the
write-back re-enqueues it into the verify-stage queue (both membership set
and backing array), so the pipeline *does* re-enqueue a failed item and
will retry it. -/
theorem rdap_failure_reenqueued_counterexample :
    (popCandidate Checker.rdap (upsertRecords initSt
        [{ id := "A", domain := "a.test", core := "a",
           status := DomainStatus.available, rdapStatus := RdapStatus.not_checked,
           createdAt := 0, checkedAt := none, source := "import" }])).1 =
      some { id := "A", domain := "a.test", core := "a",
             status := DomainStatus.available, rdapStatus := RdapStatus.not_checked,
             createdAt := 0, checkedAt := none, source := "import" } ∧
    "A" ∉ ((popCandidate Checker.rdap (upsertRecords initSt
        [{ id := "A", domain := "a.test", core := "a",
           status := DomainStatus.available, rdapStatus := RdapStatus.not_checked,
           createdAt := 0, checkedAt := none, source := "import" }])).2.qset Checker.rdap) ∧
    (runRdapOnly
      { id := "A", domain := "a.test", core := "a",
        status := DomainStatus.available, rdapStatus := RdapStatus.not_checked,
        createdAt := 0, checkedAt := none, source := "import" }
      RdapResp.failure 9).rdapStatus = RdapStatus.unknown ∧
    "A" ∈ ((upsertOne
        (popCandidate Checker.rdap (upsertRecords initSt
          [{ id := "A", domain := "a.test", core := "a",
             status := DomainStatus.available, rdapStatus := RdapStatus.not_checked,
             createdAt := 0, checkedAt := none, source := "import" }])).2
        (runRdapOnly
          { id := "A", domain := "a.test", core := "a",
            status := DomainStatus.available, rdapStatus := RdapStatus.not_checked,
            createdAt := 0, checkedAt := none, source := "import" }
          RdapResp.failure 9)).qset Checker.rdap) ∧
    "A" ∈ ((upsertOne
        (popCandidate Checker.rdap (upsertRecords initSt
          [{ id := "A", domain := "a.test", core := "a",
             status := DomainStatus.available, rdapStatus := RdapStatus.not_checked,
             createdAt := 0, checkedAt := none, source := "import" }])).2
        (runRdapOnly
          { id := "A", domain := "a.test", core := "a",
            status := DomainStatus.available, rdapStatus := RdapStatus.not_checked,
            createdAt := 0, checkedAt := none, source := "import" }
          RdapResp.failure 9)).queue Checker.rdap) := by
  decide

/-- **C2** amended.  Transport failures downgrade the answer to
`"unknown"` in both stages, and a resolve-stage failure is final: the item
joins neither queue again.  But a verify-stage failure leaves the item an
RDAP candidate, so the write-back re-enqueues it into the verify-stage
queue (it still never enters the resolve-stage queue). -/
theorem lookup_failure_semantics (r : DomainRecord) (rdap : RdapResp) (now : Nat)
    (st : St) :
    ((runDnsLookup r DnsResp.failure rdap now).status = DomainStatus.unknown ∧
      (runDnsLookup r DnsResp.failure rdap now).rdapStatus = RdapStatus.not_checked) ∧
    (r.id ∉ st.qset Checker.dns → r.id ∉ st.qset Checker.rdap →
      r.id ∉ (upsertOne st (runDnsLookup r DnsResp.failure rdap now)).qset Checker.dns ∧
      r.id ∉ (upsertOne st (runDnsLookup r DnsResp.failure rdap now)).qset Checker.rdap) ∧
    ((runRdapOnly r RdapResp.failure now).rdapStatus = RdapStatus.unknown ∧
      (runRdapOnly r RdapResp.failure now).status = r.status) ∧
    (r.status = DomainStatus.available →
      isRdapCandidate (runRdapOnly r RdapResp.failure now) = true ∧
      r.id ∈ (upsertOne st (runRdapOnly r RdapResp.failure now)).qset Checker.rdap) ∧
    (r.id ∉ st.qset Checker.dns → ¬r.status = DomainStatus.queued →
      r.id ∉ (upsertOne st (runRdapOnly r RdapResp.failure now)).qset Checker.dns) := by
  refine ⟨⟨rfl, rfl⟩, ?_, ⟨rfl, rfl⟩, ?_, ?_⟩
  · intro hdns hrdap
    constructor
    · exact upsertOne_dns_not_mem st _ hdns (by simp [runDnsLookup])
    · exact upsertOne_rdap_not_mem st _ hrdap (by simp [isRdapCandidate, runDnsLookup])
  · intro hav
    have hcand : isRdapCandidate (runRdapOnly r RdapResp.failure now) = true := by
      simp [isRdapCandidate, runRdapOnly, rdapResultOf, rdapFinalStatuses, hav]
    exact ⟨hcand, upsertOne_rdap_mem_of_candidate st _ hcand⟩
  · intro hdns hq
    exact upsertOne_dns_not_mem st _ hdns (by simpa [runRdapOnly] using hq)

/-- Witness for the amended **C2**: a concrete `"available"` record whose
verify lookup fails is re-enqueued into the verify queue and stays out of
the resolve queue; a concrete record whose resolve lookup fails enters
neither queue. -/
theorem lookup_failure_semantics_witness :
    ((runDnsLookup
        { id := "B", domain := "b.test", core := "b",
          status := DomainStatus.checking, rdapStatus := RdapStatus.not_checked,
          createdAt := 0, checkedAt := none, source := "import" }
        DnsResp.failure (RdapResp.http 404) 7).status = DomainStatus.unknown ∧
      "B" ∉ (upsertOne initSt (runDnsLookup
        { id := "B", domain := "b.test", core := "b",
          status := DomainStatus.checking, rdapStatus := RdapStatus.not_checked,
          createdAt := 0, checkedAt := none, source := "import" }
        DnsResp.failure (RdapResp.http 404) 7)).qset Checker.dns ∧
      "B" ∉ (upsertOne initSt (runDnsLookup
        { id := "B", domain := "b.test", core := "b",
          status := DomainStatus.checking, rdapStatus := RdapStatus.not_checked,
          createdAt := 0, checkedAt := none, source := "import" }
        DnsResp.failure (RdapResp.http 404) 7)).qset Checker.rdap) ∧
    ("B" ∈ (upsertOne initSt (runRdapOnly
        { id := "B", domain := "b.test", core := "b",
          status := DomainStatus.available, rdapStatus := RdapStatus.not_checked,
          createdAt := 0, checkedAt := none, source := "import" }
        RdapResp.failure 7)).qset Checker.rdap) := by
  have h1 := lookup_failure_semantics
    { id := "B", domain := "b.test", core := "b",
      status := DomainStatus.checking, rdapStatus := RdapStatus.not_checked,
      createdAt := 0, checkedAt := none, source := "import" }
    (RdapResp.http 404) 7 initSt
  have h2 := lookup_failure_semantics
    { id := "B", domain := "b.test", core := "b",
      status := DomainStatus.available, rdapStatus := RdapStatus.not_checked,
      createdAt := 0, checkedAt := none, source := "import" }
    (RdapResp.http 404) 7 initSt
  obtain ⟨hmem1, hmem2⟩ := h1.2.1 (by decide) (by decide)
  exact ⟨⟨h1.1.1, hmem1, hmem2⟩, (h2.2.2.2.1 rfl).2⟩

/-! ## C8 — `rdapStatus` before the verify stage runs

The claim fails: on an NXDOMAIN answer (`Status === 3`) the resolve-stage
`runDnsLookup` itself performs the RDAP lookup inline and stores its
result, so a resolve-stage operation does set `rdapStatus` to
`available`/`taken`/`unknown`. -/

/-- Counterexample to **C8** as stated: a freshly imported (`"queued"`,
`rdapStatus = "not_checked"`) record processed by the resolve stage with a
DNS `Status = 3` answer and an RDAP 404 comes back with
`rdapStatus = "available"`, although the verify stage never ran. -/
theorem dns_sets_rdapStatus_counterexample :
    (mkImportRecord "B" "b.test" 0).rdapStatus = RdapStatus.not_checked ∧
    (runDnsLookup (mkImportRecord "B" "b.test" 0) (DnsResp.ok (some 3))
        (RdapResp.http 404) 5).rdapStatus = RdapStatus.available := by
  decide

/-- **C8** amended.  An item's `rdapStatus` is `"not_checked"` from
creation, and every resolve-stage lookup leaves it `"not_checked"` —
*except* the NXDOMAIN case (`Status === 3`), where the resolve stage runs
the RDAP lookup inline and stores its result. -/
theorem rdapStatus_resolve_stage (r : DomainRecord) (resp : DnsResp) (rdap : RdapResp)
    (now : Nat) (id dom : String) :
    (mkImportRecord id dom now).rdapStatus = RdapStatus.not_checked ∧
    (runDnsLookup r resp rdap now).rdapStatus =
      (if resp = DnsResp.ok (some 3) then rdapResultOf rdap
       else RdapStatus.not_checked) := by
  refine ⟨rfl, ?_⟩
  cases resp with
  | failure => simp [runDnsLookup]
  | notOk => simp [runDnsLookup]
  | ok code =>
      cases code with
      | none => simp [runDnsLookup]
      | some c =>
          by_cases h3 : c = 3
          · subst h3
            simp [runDnsLookup]
          · rw [runDnsLookup]
            simp only [if_neg h3]
            have : ¬(DnsResp.ok (some c) = DnsResp.ok (some 3)) := by
              simp [h3]
            rw [if_neg this]
            split <;> rfl


/-! ## C3 — incremental stats equal a full rescan

`adjustStats` applies per-item deltas on every store mutation;
`recomputeStats` is the full rescan.  We show the counters agree after any
sequence of enqueue / upsert / clear operations, by induction with the
auxiliary invariant that every index entry points inside the records
array. -/

theorem countP_set {α : Type} (p : α → Bool) :
    ∀ (l : List α) (i : Nat) (a : α) (h : i < l.length),
      (l.set i a).countP p + (if p (l.get ⟨i, h⟩) then 1 else 0) =
        l.countP p + (if p a then 1 else 0) := by
  intro l
  induction l with
  | nil => intro i a h; simp at h
  | cons x t ih =>
      intro i a h
      cases i with
      | zero =>
          simp only [List.set_cons_zero, List.countP_cons, List.get]
          ring
      | succ j =>
          have hj : j < t.length := by simpa using h
          simp only [List.set_cons_succ, List.countP_cons, List.get]
          have := ih j a hj
          generalize (if p x = true then 1 else 0) = b
          omega

theorem foldl_statsBump (l : List DomainRecord) :
    ∀ s : Stats, l.foldl statsBump s =
      { total := s.total,
        queueCount := s.queueCount + (l.countP (fun r =>
          decide (r.status = DomainStatus.queued ∨ r.status = DomainStatus.checking)) : Int),
        totalAvailable := s.totalAvailable + (l.countP (fun r =>
          decide (r.status = DomainStatus.available)) : Int),
        totalTaken := s.totalTaken + (l.countP (fun r =>
          decide (r.status = DomainStatus.taken)) : Int),
        totalChecked := s.totalChecked + (l.countP (fun r =>
          decide (¬r.status = DomainStatus.queued ∧ ¬r.status = DomainStatus.checking)) : Int),
        takenOverall := s.takenOverall + (l.countP (fun r =>
          decide (r.status = DomainStatus.taken ∨ r.rdapStatus = RdapStatus.taken)) : Int) } := by
  induction l with
  | nil => intro s; cases s; simp
  | cons r t ih =>
      intro s
      rw [List.foldl_cons, ih (statsBump s r)]
      cases s
      simp only [statsBump, List.countP_cons, Stats.mk.injEq, decide_eq_true_eq]
      push_cast
      refine ⟨trivial, ?_, ?_, ?_, ?_, ?_⟩ <;> ring

theorem recomputeStats_eq (l : List DomainRecord) :
    recomputeStats l =
      { total := (l.length : Int),
        queueCount := (l.countP (fun r =>
          decide (r.status = DomainStatus.queued ∨ r.status = DomainStatus.checking)) : Int),
        totalAvailable := (l.countP (fun r =>
          decide (r.status = DomainStatus.available)) : Int),
        totalTaken := (l.countP (fun r =>
          decide (r.status = DomainStatus.taken)) : Int),
        totalChecked := (l.countP (fun r =>
          decide (¬r.status = DomainStatus.queued ∧ ¬r.status = DomainStatus.checking)) : Int),
        takenOverall := (l.countP (fun r =>
          decide (r.status = DomainStatus.taken ∨ r.rdapStatus = RdapStatus.taken)) : Int) } := by
  rw [recomputeStats, foldl_statsBump]
  simp [zeroStats]

theorem indexFind_some_lt {st : St} {id : String} {i : Nat}
    (hbound : ∀ p ∈ st.index, p.2 < st.records.length)
    (h : indexFind st.index id = some i) : i < st.records.length := by
  unfold indexFind at h
  cases hf : st.index.find? (fun p => p.1 = id) with
  | none => rw [hf] at h; simp at h
  | some q =>
      rw [hf] at h
      simp at h
      have := hbound q (List.mem_of_find?_eq_some hf)
      omega

theorem countP_set_int {α : Type} (p : α → Bool) (l : List α) (i : Nat) (a : α)
    (h : i < l.length) :
    (((l.set i a).countP p : Int)) =
      (l.countP p : Int) - (if p (l.get ⟨i, h⟩) then 1 else 0) +
        (if p a then 1 else 0) := by
  have hnat := countP_set p l i a h
  by_cases hg : p (l.get ⟨i, h⟩) = true <;> by_cases ha : p a = true
  · rw [if_pos hg, if_pos ha] at hnat ⊢
    omega
  · rw [if_pos hg, if_neg ha] at hnat ⊢
    omega
  · rw [if_neg hg, if_pos ha] at hnat ⊢
    omega
  · rw [if_neg hg, if_neg ha] at hnat ⊢
    omega

theorem upsertOne_stats (st : St) (item : DomainRecord)
    (hbound : ∀ p ∈ st.index, p.2 < st.records.length)
    (hstats : st.stats = recomputeStats st.records) :
    (upsertOne st item).stats = recomputeStats (upsertOne st item).records ∧
    (∀ p ∈ (upsertOne st item).index, p.2 < (upsertOne st item).records.length) := by
  unfold upsertOne
  cases hidx : indexFind st.index item.id with
  | none =>
      simp only [lookupRecord, hidx]
      constructor
      · rw [hstats, recomputeStats_eq, recomputeStats_eq]
        simp only [adjustStats, applyDelta, Stats.mk.injEq, List.countP_append,
          List.countP_cons, List.countP_nil, decide_eq_true_eq, List.length_append,
          List.length_cons, List.length_nil]
        push_cast
        refine ⟨by ring, ?_, ?_, ?_, ?_, ?_⟩ <;> (split_ifs <;> omega)
      · intro p hp
        rcases List.mem_append.mp hp with hone | htwo
        · have := hbound p hone
          simp only [List.length_append, List.length_cons, List.length_nil]
          omega
        · simp only [List.mem_singleton] at htwo
          subst htwo
          simp only [List.length_append, List.length_cons, List.length_nil]
          omega
  | some i =>
      simp only [lookupRecord, hidx]
      have hi := indexFind_some_lt hbound hidx
      have hget : st.records.get? i = some (st.records.get ⟨i, hi⟩) := List.get?_eq_get hi
      constructor
      · rw [hget, hstats, recomputeStats_eq, recomputeStats_eq]
        simp only [adjustStats, applyDelta, Stats.mk.injEq]
        refine ⟨by simp, ?_, ?_, ?_, ?_, ?_⟩ <;>
          (rw [countP_set_int _ st.records i item hi]
           simp only [decide_eq_true_eq]
           split_ifs <;> omega)
      · intro p hp
        have := hbound p hp
        simpa [List.length_set] using this

theorem foldl_upsertOne_stats (updates : List DomainRecord) :
    ∀ st : St, (∀ p ∈ st.index, p.2 < st.records.length) →
      st.stats = recomputeStats st.records →
      ((updates.foldl upsertOne st).stats =
          recomputeStats (updates.foldl upsertOne st).records ∧
        ∀ p ∈ (updates.foldl upsertOne st).index,
          p.2 < (updates.foldl upsertOne st).records.length) := by
  induction updates with
  | nil => intro st h1 h2; exact ⟨h2, h1⟩
  | cons u t ih =>
      intro st h1 h2
      rw [List.foldl_cons]
      obtain ⟨hs, hb⟩ := upsertOne_stats st u h1 h2
      exact ih (upsertOne st u) hb hs

theorem applyOp_stats (st : St) (op : Op)
    (h1 : ∀ p ∈ st.index, p.2 < st.records.length)
    (h2 : st.stats = recomputeStats st.records) :
    (applyOp st op).stats = recomputeStats (applyOp st op).records ∧
    ∀ p ∈ (applyOp st op).index, p.2 < (applyOp st op).records.length := by
  cases op with
  | enqueue newRecords =>
      simp only [applyOp, upsertRecords]
      split
      · exact ⟨h2, h1⟩
      · exact foldl_upsertOne_stats newRecords st h1 h2
  | upsert updates =>
      simp only [applyOp, upsertRecords]
      split
      · exact ⟨h2, h1⟩
      · exact foldl_upsertOne_stats updates st h1 h2
  | clear =>
      simp only [applyOp, handleClear]
      refine ⟨?_, by simp⟩
      rfl

/-- **C3** (confirmed).  After any sequence of enqueue, single-item or
batch upsert, and clear operations, the incrementally maintained counters
(`total`, `queueCount`, `totalAvailable`, `totalTaken`, `totalChecked`,
`takenOverall`, updated only through `adjustStats` deltas and the insert
path's `total + 1`) equal the counters `recomputeStats` would produce by a
full rescan of the store. -/
theorem stats_refinement (ops : List Op) :
    (applyOps ops initSt).stats = recomputeStats (applyOps ops initSt).records := by
  suffices h : ∀ st : St, (∀ p ∈ st.index, p.2 < st.records.length) →
      st.stats = recomputeStats st.records →
      ((ops.foldl applyOp st).stats = recomputeStats (ops.foldl applyOp st).records ∧
        ∀ p ∈ (ops.foldl applyOp st).index,
          p.2 < (ops.foldl applyOp st).records.length) by
    exact (h initSt (by simp [initSt]) rfl).1
  induction ops with
  | nil => intro st h1 h2; exact ⟨h2, h1⟩
  | cons op t ih =>
      intro st h1 h2
      rw [List.foldl_cons]
      obtain ⟨hs, hb⟩ := applyOp_stats st op h1 h2
      exact ih (applyOp st op) hb hs


end DomainChecker

namespace DomainChecker

theorem addToQueue_snd (queue : List String) (set : Finset String) (id : String) :
    (addToQueue queue set id).2 = insert id set := by
  unfold addToQueue
  split
  · exact (Finset.insert_eq_self.mpr (by assumption)).symm
  · rfl

theorem upsertOne_inFlight (st : St) (item : DomainRecord) :
    (upsertOne st item).inFlight = st.inFlight := by
  unfold upsertOne
  cases indexFind st.index item.id <;> rfl

theorem upsertOne_stopRequested (st : St) (item : DomainRecord) :
    (upsertOne st item).stopRequested = st.stopRequested := by
  unfold upsertOne
  cases indexFind st.index item.id <;> rfl

theorem upsertOne_running (st : St) (item : DomainRecord) :
    (upsertOne st item).running = st.running := by
  unfold upsertOne
  cases indexFind st.index item.id <;> rfl

theorem popCandidate_records (c : Checker) (st : St) :
    (popCandidate c st).2.records = st.records := rfl

theorem popCandidate_index (c : Checker) (st : St) :
    (popCandidate c st).2.index = st.index := rfl

theorem popCandidate_inFlight (c : Checker) (st : St) :
    (popCandidate c st).2.inFlight = st.inFlight := rfl

theorem popCandidate_stopRequested (c : Checker) (st : St) :
    (popCandidate c st).2.stopRequested = st.stopRequested := rfl

theorem popCandidate_running (c : Checker) (st : St) :
    (popCandidate c st).2.running = st.running := rfl

theorem upsertOne_qset_dns (st : St) (item : DomainRecord) :
    (upsertOne st item).qset Checker.dns =
      (if item.status = DomainStatus.queued then
        insert item.id (st.qset Checker.dns)
      else if (match lookupRecord st item.id with
               | some p => decide (p.status = DomainStatus.queued)
               | none => false) = true then
        (st.qset Checker.dns).erase item.id
      else st.qset Checker.dns) := by
  unfold upsertOne
  cases hidx : indexFind st.index item.id <;>
    simp only [lookupRecord, hidx] <;>
    rw [Function.update_noteq (by decide : Checker.dns ≠ Checker.rdap), Function.update_same]
  · by_cases hq : item.status = DomainStatus.queued <;>
      simp [removeFromQueue, hq, addToQueue_snd]
  · next i =>
      cases hget : st.records.get? i with
      | none =>
          by_cases hq : item.status = DomainStatus.queued <;>
            simp [removeFromQueue, hq, hget, addToQueue_snd]
      | some p =>
          by_cases hq : item.status = DomainStatus.queued <;>
            by_cases hpq : p.status = DomainStatus.queued <;>
            simp [removeFromQueue, hq, hpq, hget, addToQueue_snd]

theorem upsertOne_qset_rdap (st : St) (item : DomainRecord) :
    (upsertOne st item).qset Checker.rdap =
      (if isRdapCandidate item = true then
        insert item.id (st.qset Checker.rdap)
      else if (match lookupRecord st item.id with
               | some p => isRdapCandidate p
               | none => false) = true then
        (st.qset Checker.rdap).erase item.id
      else st.qset Checker.rdap) := by
  unfold upsertOne
  cases hidx : indexFind st.index item.id <;>
    simp only [lookupRecord, hidx] <;>
    rw [Function.update_same]
  · by_cases hq : isRdapCandidate item = true <;>
      simp [removeFromQueue, hq, addToQueue_snd]
  · next i =>
      cases hget : st.records.get? i with
      | none =>
          by_cases hq : isRdapCandidate item = true <;>
            simp [removeFromQueue, hq, hget, addToQueue_snd]
      | some p =>
          by_cases hq : isRdapCandidate item = true <;>
            by_cases hpq : isRdapCandidate p = true <;>
            simp [removeFromQueue, hq, hpq, hget, addToQueue_snd]

end DomainChecker

namespace DomainChecker

theorem upsertOne_index (st : St) (item : DomainRecord) :
    (upsertOne st item).index =
      (match indexFind st.index item.id with
        | some _ => st.index
        | none => st.index ++ [(item.id, st.records.length)]) := by
  unfold upsertOne
  cases indexFind st.index item.id <;> rfl

theorem upsertOne_records (st : St) (item : DomainRecord) :
    (upsertOne st item).records =
      (match indexFind st.index item.id with
        | some i => st.records.set i item
        | none => st.records ++ [item]) := by
  unfold upsertOne
  cases indexFind st.index item.id <;> rfl

theorem indexFind_entry {index : List (String × Nat)} {id : String} {i : Nat}
    (h : indexFind index id = some i) :
    ∃ q ∈ index, q.1 = id ∧ q.2 = i := by
  unfold indexFind at h
  cases hf : index.find? (fun p => p.1 = id) with
  | none => rw [hf] at h; simp at h
  | some q =>
      rw [hf] at h
      simp only [Option.map_some'] at h
      refine ⟨q, List.mem_of_find?_eq_some hf, ?_, by simpa using h⟩
      have := List.find?_some hf
      simpa using this

theorem indexFind_none {index : List (String × Nat)} {id : String}
    (h : indexFind index id = none) : ∀ q ∈ index, q.1 ≠ id := by
  unfold indexFind at h
  rw [Option.map_eq_none'] at h
  rw [List.find?_eq_none] at h
  intro q hq
  simpa using h q hq

theorem indexFind_accurate {st : St} {id : String} {i : Nat}
    (hacc : ∀ p ∈ st.index, ∃ r, st.records.get? p.2 = some r ∧ r.id = p.1)
    (h : indexFind st.index id = some i) :
    ∃ r, st.records.get? i = some r ∧ r.id = id := by
  obtain ⟨q, hq, h1, h2⟩ := indexFind_entry h
  obtain ⟨r, hr1, hr2⟩ := hacc q hq
  exact ⟨r, h2 ▸ hr1, h1 ▸ hr2⟩

theorem upsertOne_storeInv (st : St) (item : DomainRecord)
    (hk : (st.index.map Prod.fst).Nodup)
    (hv : (st.index.map Prod.snd).Nodup)
    (hacc : ∀ p ∈ st.index, ∃ r, st.records.get? p.2 = some r ∧ r.id = p.1) :
    ((upsertOne st item).index.map Prod.fst).Nodup ∧
    ((upsertOne st item).index.map Prod.snd).Nodup ∧
    (∀ p ∈ (upsertOne st item).index,
      ∃ r, (upsertOne st item).records.get? p.2 = some r ∧ r.id = p.1) := by
  rw [upsertOne_index, upsertOne_records]
  cases hidx : indexFind st.index item.id with
  | some i =>
      obtain ⟨q, hq, hq1, hq2⟩ := indexFind_entry hidx
      obtain ⟨rq, hrq, _⟩ := hacc q hq
      have hilt : i < st.records.length := by
        rw [List.get?_eq_getElem?] at hrq
        have := List.getElem?_eq_some_iff.mp (hq2 ▸ hrq)
        exact this.1
      refine ⟨hk, hv, ?_⟩
      intro p hp
      by_cases hpi : p.2 = i
      · have hpq : p = q := by
          apply List.inj_on_of_nodup_map hv hp hq
          show p.2 = q.2
          rw [hpi, hq2]
        refine ⟨item, ?_, by rw [hpq, hq1]⟩
        rw [List.get?_eq_getElem?, hpi]
        exact List.getElem?_set_self hilt
      · obtain ⟨r, hr1, hr2⟩ := hacc p hp
        refine ⟨r, ?_, hr2⟩
        rw [List.get?_eq_getElem?] at hr1 ⊢
        rw [List.getElem?_set_ne (fun he => hpi he.symm)]
        exact hr1
  | none =>
      have hfresh := indexFind_none hidx
      have hlen : ∀ q ∈ st.index, q.2 < st.records.length := by
        intro q hq
        obtain ⟨r, hr1, _⟩ := hacc q hq
        rw [List.get?_eq_getElem?] at hr1
        exact (List.getElem?_eq_some_iff.mp hr1).1
      refine ⟨?_, ?_, ?_⟩
      · rw [List.map_append, List.nodup_append]
        refine ⟨hk, List.nodup_singleton _, ?_⟩
        intro a ha hb
        simp only [List.map_cons, List.map_nil, List.mem_singleton] at hb
        subst hb
        obtain ⟨q, hq, hq1⟩ := List.mem_map.mp ha
        exact hfresh q hq hq1
      · rw [List.map_append, List.nodup_append]
        refine ⟨hv, List.nodup_singleton _, ?_⟩
        intro a ha hb
        simp only [List.map_cons, List.map_nil, List.mem_singleton] at hb
        subst hb
        obtain ⟨q, hq, hq1⟩ := List.mem_map.mp ha
        exact absurd hq1 (Nat.ne_of_lt (hlen q hq))
      · intro p hp
        rcases List.mem_append.mp hp with hold | hnew
        · obtain ⟨r, hr1, hr2⟩ := hacc p hold
          refine ⟨r, ?_, hr2⟩
          rw [List.get?_eq_getElem?] at hr1 ⊢
          rw [List.getElem?_append_left (hlen p hold)]
          exact hr1
        · simp only [List.mem_singleton] at hnew
          subst hnew
          refine ⟨item, ?_, rfl⟩
          rw [List.get?_eq_getElem?]
          exact List.getElem?_concat_length st.records item

end DomainChecker

namespace DomainChecker

theorem upsertOne_lookup_self (st : St) (item : DomainRecord)
    (hacc : ∀ p ∈ st.index, ∃ r, st.records.get? p.2 = some r ∧ r.id = p.1) :
    lookupRecord (upsertOne st item) item.id = some item := by
  unfold lookupRecord
  rw [upsertOne_index, upsertOne_records]
  cases hidx : indexFind st.index item.id with
  | some i =>
      simp only [hidx]
      obtain ⟨r, hr1, _⟩ := indexFind_accurate hacc hidx
      have hlt : i < st.records.length := by
        rw [List.get?_eq_getElem?] at hr1
        exact (List.getElem?_eq_some_iff.mp hr1).1
      rw [List.get?_eq_getElem?]
      exact List.getElem?_set_self hlt
  | none =>
      simp only [hidx]
      have hbase : st.index.find? (fun p => p.1 = item.id) = none := by
        unfold indexFind at hidx
        exact Option.map_eq_none'.mp hidx
      have hfind : indexFind (st.index ++ [(item.id, st.records.length)]) item.id =
          some st.records.length := by
        unfold indexFind
        rw [List.find?_append, hbase]
        simp
      rw [hfind]
      show (st.records ++ [item]).get? st.records.length = some item
      rw [List.get?_eq_getElem?]
      exact List.getElem?_concat_length st.records item

theorem upsertOne_lookup_other (st : St) (item : DomainRecord) (id : String)
    (hne : id ≠ item.id)
    (hv : (st.index.map Prod.snd).Nodup)
    (hacc : ∀ p ∈ st.index, ∃ r, st.records.get? p.2 = some r ∧ r.id = p.1) :
    lookupRecord (upsertOne st item) id = lookupRecord st id := by
  unfold lookupRecord
  rw [upsertOne_index, upsertOne_records]
  cases hidx : indexFind st.index item.id with
  | some i =>
      simp only [hidx]
      cases hid : indexFind st.index id with
      | none => rfl
      | some j =>
          simp only [hid]
          obtain ⟨p, hp, hp1, hp2⟩ := indexFind_entry hid
          obtain ⟨q, hq, hq1, hq2⟩ := indexFind_entry hidx
          have hpq : p ≠ q := by
            intro he
            apply hne
            rw [← hp1, he, hq1]
          have hji : j ≠ i := by
            intro he
            apply hpq
            apply List.inj_on_of_nodup_map hv hp hq
            show p.2 = q.2
            rw [hp2, hq2, he]
          rw [List.get?_eq_getElem?, List.get?_eq_getElem?,
            List.getElem?_set_ne (fun h => hji h.symm)]
  | none =>
      simp only [hidx]
      have heq : indexFind (st.index ++ [(item.id, st.records.length)]) id =
          indexFind st.index id := by
        unfold indexFind
        rw [List.find?_append]
        cases hf : st.index.find? (fun p => p.1 = id) with
        | some q => rfl
        | none => simp [List.find?, Ne.symm hne]
      rw [heq]
      cases hid : indexFind st.index id with
      | none => rfl
      | some j =>
          simp only [hid]
          obtain ⟨r, hr1, _⟩ := indexFind_accurate hacc hid
          have hlt : j < st.records.length := by
            rw [List.get?_eq_getElem?] at hr1
            exact (List.getElem?_eq_some_iff.mp hr1).1
          rw [List.get?_eq_getElem?, List.get?_eq_getElem?,
            List.getElem?_append_left hlt]

end DomainChecker

namespace DomainChecker

theorem popLoop_subset (inF : Finset String) (index : List (String × Nat))
    (records : List DomainRecord) :
    ∀ (q : List String) (qset : Finset String),
      (popLoop inF index records q qset).2.2 ⊆ qset := by
  intro q
  induction q with
  | nil => intro qset; exact fun x hx => hx
  | cons id rest ih =>
      intro qset
      simp only [popLoop]
      split
      · exact ih qset
      · split
        · exact ih qset
        · cases hidx : indexFind index id with
          | none =>
              simp only []
              exact (ih (qset.erase id)).trans (Finset.erase_subset id qset)
          | some i =>
              simp only []
              cases hget : records.get? i with
              | some r =>
                  simp only []
                  exact Finset.erase_subset id qset
              | none =>
                  simp only []
                  exact Finset.erase_subset id qset

theorem popLoop_some (inF : Finset String) (index : List (String × Nat))
    (records : List DomainRecord) :
    ∀ (q : List String) (qset : Finset String) (r : DomainRecord)
      (q' : List String) (s' : Finset String),
      popLoop inF index records q qset = (some r, q', s') →
      ∃ id i, id ∈ qset ∧ id ∉ inF ∧ indexFind index id = some i ∧
        records.get? i = some r ∧ id ∉ s' := by
  intro q
  induction q with
  | nil =>
      intro qset r q' s' h
      simp [popLoop] at h
  | cons id rest ih =>
      intro qset r q' s' h
      simp only [popLoop] at h
      split at h
      · exact ih qset r q' s' h
      · next hmem =>
          rw [not_not] at hmem
          split at h
          · exact ih qset r q' s' h
          · next hflight =>
              cases hidx : indexFind index id with
              | none =>
                  rw [hidx] at h
                  simp only [] at h
                  obtain ⟨id', i', h1, h2, h3, h4, h5⟩ := ih (qset.erase id) r q' s' h
                  exact ⟨id', i', Finset.mem_of_mem_erase h1, h2, h3, h4, h5⟩
              | some i =>
                  rw [hidx] at h
                  simp only [] at h
                  cases hget : records.get? i with
                  | some rec =>
                      rw [hget] at h
                      simp only [] at h
                      obtain ⟨hr, hq', hs'⟩ : rec = r ∧ rest = q' ∧ qset.erase id = s' := by
                        simpa using h
                      refine ⟨id, i, hmem, hflight, hidx, ?_, ?_⟩
                      · rw [hget, hr]
                      · rw [← hs']
                        exact Finset.not_mem_erase id qset
                  | none =>
                      rw [hget] at h
                      simp only [] at h
                      simp at h

end DomainChecker

namespace DomainChecker

theorem popCandidate_qset_subset (c : Checker) (st : St) :
    (popCandidate c st).2.qset c ⊆ st.qset c := by
  unfold popCandidate
  simp only [Function.update_same]
  exact popLoop_subset _ _ _ _ _

theorem popCandidate_qset_other (c c' : Checker) (st : St) (h : c' ≠ c) :
    (popCandidate c st).2.qset c' = st.qset c' := by
  unfold popCandidate
  simp only []
  exact Function.update_noteq h _ _

theorem popCandidate_some_spec (c : Checker) (st : St) (r : DomainRecord)
    (hacc : ∀ p ∈ st.index, ∃ rr, st.records.get? p.2 = some rr ∧ rr.id = p.1)
    (h : (popCandidate c st).1 = some r) :
    r.id ∈ st.qset c ∧ r.id ∉ st.inFlight c ∧ lookupRecord st r.id = some r ∧
    r.id ∉ (popCandidate c st).2.qset c := by
  rcases hpop : popLoop (st.inFlight c) st.index st.records (st.queue c) (st.qset c)
    with ⟨o, q2, s2⟩
  unfold popCandidate at h ⊢
  rw [hpop] at h ⊢
  simp only [] at h ⊢
  subst h
  obtain ⟨id, i, hm, hf, hidx, hget, hns⟩ := popLoop_some _ _ _ _ _ r q2 s2 hpop
  obtain ⟨rr, hrr, hrid⟩ := indexFind_accurate hacc hidx
  have hrr' : rr = r := by
    rw [hget] at hrr
    exact (Option.some.inj hrr).symm
  subst hrr'
  subst hrid
  refine ⟨hm, hf, ?_, ?_⟩
  · simp only [lookupRecord, hidx]
    exact hget
  · simp only [Function.update_same]
    exact hns

end DomainChecker

namespace DomainChecker

theorem upsertOne_qsetInv_dns (st : St) (item : DomainRecord)
    (hv : (st.index.map Prod.snd).Nodup)
    (hacc : ∀ p ∈ st.index, ∃ r, st.records.get? p.2 = some r ∧ r.id = p.1)
    (hq : ∀ id ∈ st.qset Checker.dns,
      ∃ r, lookupRecord st id = some r ∧ r.status = DomainStatus.queued) :
    ∀ id ∈ (upsertOne st item).qset Checker.dns,
      ∃ r, lookupRecord (upsertOne st item) id = some r ∧
        r.status = DomainStatus.queued := by
  intro id hid
  rw [upsertOne_qset_dns] at hid
  by_cases hii : id = item.id
  · subst hii
    split at hid
    · next hq2 => exact ⟨item, upsertOne_lookup_self st item hacc, hq2⟩
    · next hq2 =>
        split at hid
        · exact absurd hid (Finset.not_mem_erase _ _)
        · next hcond =>
            obtain ⟨r, hr, hrq⟩ := hq item.id hid
            exact absurd (by rw [hr]; simp [hrq]) hcond
  · have hid' : id ∈ st.qset Checker.dns := by
      split at hid
      · exact Finset.mem_of_mem_insert_of_ne hid hii
      · split at hid
        · exact Finset.mem_of_mem_erase hid
        · exact hid
    obtain ⟨r, hr, hrq⟩ := hq id hid'
    refine ⟨r, ?_, hrq⟩
    rw [upsertOne_lookup_other st item id hii hv hacc]
    exact hr

theorem upsertOne_qsetInv_rdap (st : St) (item : DomainRecord)
    (hv : (st.index.map Prod.snd).Nodup)
    (hacc : ∀ p ∈ st.index, ∃ r, st.records.get? p.2 = some r ∧ r.id = p.1)
    (hq : ∀ id ∈ st.qset Checker.rdap,
      ∃ r, lookupRecord st id = some r ∧ isRdapCandidate r = true) :
    ∀ id ∈ (upsertOne st item).qset Checker.rdap,
      ∃ r, lookupRecord (upsertOne st item) id = some r ∧
        isRdapCandidate r = true := by
  intro id hid
  rw [upsertOne_qset_rdap] at hid
  by_cases hii : id = item.id
  · subst hii
    split at hid
    · next hq2 => exact ⟨item, upsertOne_lookup_self st item hacc, hq2⟩
    · next hq2 =>
        split at hid
        · exact absurd hid (Finset.not_mem_erase _ _)
        · next hcond =>
            obtain ⟨r, hr, hrq⟩ := hq item.id hid
            exact absurd (by rw [hr]; simp [hrq]) hcond
  · have hid' : id ∈ st.qset Checker.rdap := by
      split at hid
      · exact Finset.mem_of_mem_insert_of_ne hid hii
      · split at hid
        · exact Finset.mem_of_mem_erase hid
        · exact hid
    obtain ⟨r, hr, hrq⟩ := hq id hid'
    refine ⟨r, ?_, hrq⟩
    rw [upsertOne_lookup_other st item id hii hv hacc]
    exact hr

end DomainChecker

namespace DomainChecker

theorem updPhase_apply (phase : Checker → Fin BATCH_SIZE → Phase) (c : Checker)
    (w : Fin BATCH_SIZE) (p : Phase) (c' : Checker) (w' : Fin BATCH_SIZE) :
    updPhase phase c w p c' w' =
      if c' = c then (if w' = w then p else phase c' w') else phase c' w' := by
  unfold updPhase
  by_cases h1 : c' = c
  · subst h1
    rw [Function.update_same, if_pos rfl]
    by_cases h2 : w' = w
    · subst h2
      rw [Function.update_same, if_pos rfl]
    · rw [Function.update_noteq h2, if_neg h2]
  · rw [Function.update_noteq h1, if_neg h1]

theorem heldBy_phase {cfg cfg' : Config} (h : cfg'.phase = cfg.phase) :
    ∀ c w, heldBy cfg' c w = heldBy cfg c w := by
  intro c w
  unfold heldBy
  rw [h]

theorem flight_claim_preserved {cfg cfg' : Config} {c : Checker} {w : Fin BATCH_SIZE}
    {r : DomainRecord}
    (hphase : cfg'.phase = updPhase cfg.phase c w (Phase.working r))
    (hflight : cfg'.st.inFlight =
      Function.update cfg.st.inFlight c (insert r.id (cfg.st.inFlight c)))
    (hidle : cfg.phase c w = Phase.idle)
    (hnot : r.id ∉ cfg.st.inFlight c)
    (hfi : ∀ c' id, id ∈ cfg.st.inFlight c' ↔ ∃ w', heldBy cfg c' w' = some id)
    (hinj : ∀ c' w1 w2 id, heldBy cfg c' w1 = some id → heldBy cfg c' w2 = some id →
      w1 = w2) :
    (∀ c' id, id ∈ cfg'.st.inFlight c' ↔ ∃ w', heldBy cfg' c' w' = some id) ∧
    (∀ c' w1 w2 id, heldBy cfg' c' w1 = some id → heldBy cfg' c' w2 = some id →
      w1 = w2) := by
  have hheld : ∀ c' w', heldBy cfg' c' w' =
      if c' = c then (if w' = w then some r.id else heldBy cfg c' w')
      else heldBy cfg c' w' := by
    intro c' w'
    unfold heldBy
    rw [hphase, updPhase_apply]
    by_cases h1 : c' = c
    · subst h1
      rw [if_pos rfl, if_pos rfl]
      by_cases h2 : w' = w
      · subst h2
        rw [if_pos rfl, if_pos rfl]
      · rw [if_neg h2, if_neg h2]
    · rw [if_neg h1, if_neg h1]
  constructor
  · intro c' id
    rw [hflight]
    by_cases h1 : c' = c
    · subst h1
      rw [Function.update_same, Finset.mem_insert]
      constructor
      · rintro (rfl | hold)
        · exact ⟨w, by rw [hheld, if_pos rfl, if_pos rfl]⟩
        · obtain ⟨w', hw'⟩ := (hfi c' id).mp hold
          have hww : w' ≠ w := by
            intro he
            subst he
            unfold heldBy at hw'
            rw [hidle] at hw'
            exact Option.noConfusion hw'
          exact ⟨w', by rw [hheld, if_pos rfl, if_neg hww]; exact hw'⟩
      · rintro ⟨w', hw'⟩
        rw [hheld, if_pos rfl] at hw'
        by_cases hww : w' = w
        · rw [if_pos hww] at hw'
          exact Or.inl (Option.some.inj hw').symm
        · rw [if_neg hww] at hw'
          exact Or.inr ((hfi c' id).mpr ⟨w', hw'⟩)
    · rw [Function.update_noteq h1]
      rw [hfi c' id]
      constructor
      · rintro ⟨w', hw'⟩
        exact ⟨w', by rw [hheld, if_neg h1]; exact hw'⟩
      · rintro ⟨w', hw'⟩
        rw [hheld, if_neg h1] at hw'
        exact ⟨w', hw'⟩
  · intro c' w1 w2 id h1 h2
    rw [hheld] at h1 h2
    by_cases hc : c' = c
    · rw [if_pos hc] at h1 h2
      by_cases hw1 : w1 = w <;> by_cases hw2 : w2 = w
      · rw [hw1, hw2]
      · rw [if_pos hw1] at h1
        rw [if_neg hw2] at h2
        have hid : id = r.id := (Option.some.inj h1).symm
        subst hid
        exact absurd ((hfi c' r.id).mpr ⟨w2, h2⟩) (hc ▸ hnot)
      · rw [if_neg hw1] at h1
        rw [if_pos hw2] at h2
        have hid : id = r.id := (Option.some.inj h2).symm
        subst hid
        exact absurd ((hfi c' r.id).mpr ⟨w1, h1⟩) (hc ▸ hnot)
      · rw [if_neg hw1] at h1
        rw [if_neg hw2] at h2
        exact hinj c' w1 w2 id h1 h2
    · rw [if_neg hc] at h1 h2
      exact hinj c' w1 w2 id h1 h2

end DomainChecker

namespace DomainChecker

theorem flight_wrote_preserved {cfg cfg' : Config} {c : Checker} {w : Fin BATCH_SIZE}
    {r : DomainRecord}
    (hphase : cfg'.phase = updPhase cfg.phase c w (Phase.wrote r))
    (hflight : cfg'.st.inFlight = cfg.st.inFlight)
    (hw : cfg.phase c w = Phase.working r)
    (hfi : ∀ c' id, id ∈ cfg.st.inFlight c' ↔ ∃ w', heldBy cfg c' w' = some id)
    (hinj : ∀ c' w1 w2 id, heldBy cfg c' w1 = some id → heldBy cfg c' w2 = some id →
      w1 = w2) :
    (∀ c' id, id ∈ cfg'.st.inFlight c' ↔ ∃ w', heldBy cfg' c' w' = some id) ∧
    (∀ c' w1 w2 id, heldBy cfg' c' w1 = some id → heldBy cfg' c' w2 = some id →
      w1 = w2) := by
  have hheld : ∀ c' w', heldBy cfg' c' w' = heldBy cfg c' w' := by
    intro c' w'
    unfold heldBy
    rw [hphase, updPhase_apply]
    by_cases h1 : c' = c
    · subst h1
      rw [if_pos rfl]
      by_cases h2 : w' = w
      · subst h2
        rw [if_pos rfl, hw]
      · rw [if_neg h2]
    · rw [if_neg h1]
  constructor
  · intro c' id
    rw [hflight, hfi c' id]
    exact ⟨fun ⟨w', hw'⟩ => ⟨w', by rw [hheld]; exact hw'⟩,
      fun ⟨w', hw'⟩ => ⟨w', by rw [← hheld c' w']; exact hw'⟩⟩
  · intro c' w1 w2 id h1 h2
    rw [hheld] at h1 h2
    exact hinj c' w1 w2 id h1 h2

theorem flight_finish_preserved {cfg cfg' : Config} {c : Checker} {w : Fin BATCH_SIZE}
    {r : DomainRecord}
    (hphase : cfg'.phase = updPhase cfg.phase c w Phase.idle)
    (hflight : cfg'.st.inFlight =
      Function.update cfg.st.inFlight c ((cfg.st.inFlight c).erase r.id))
    (hw : cfg.phase c w = Phase.wrote r)
    (hfi : ∀ c' id, id ∈ cfg.st.inFlight c' ↔ ∃ w', heldBy cfg c' w' = some id)
    (hinj : ∀ c' w1 w2 id, heldBy cfg c' w1 = some id → heldBy cfg c' w2 = some id →
      w1 = w2) :
    (∀ c' id, id ∈ cfg'.st.inFlight c' ↔ ∃ w', heldBy cfg' c' w' = some id) ∧
    (∀ c' w1 w2 id, heldBy cfg' c' w1 = some id → heldBy cfg' c' w2 = some id →
      w1 = w2) := by
  have hwheld : heldBy cfg c w = some r.id := by
    unfold heldBy
    rw [hw]
  have hheld : ∀ c' w', heldBy cfg' c' w' =
      if c' = c then (if w' = w then none else heldBy cfg c' w')
      else heldBy cfg c' w' := by
    intro c' w'
    unfold heldBy
    rw [hphase, updPhase_apply]
    by_cases h1 : c' = c
    · subst h1
      rw [if_pos rfl, if_pos rfl]
      by_cases h2 : w' = w
      · subst h2
        rw [if_pos rfl, if_pos rfl]
      · rw [if_neg h2, if_neg h2]
    · rw [if_neg h1, if_neg h1]
  constructor
  · intro c' id
    rw [hflight]
    by_cases h1 : c' = c
    · subst h1
      rw [Function.update_same, Finset.mem_erase]
      constructor
      · rintro ⟨hne, hmem⟩
        obtain ⟨w', hw'⟩ := (hfi c' id).mp hmem
        have hww : w' ≠ w := by
          intro he
          subst he
          rw [hwheld] at hw'
          exact hne (Option.some.inj hw').symm
        exact ⟨w', by rw [hheld, if_pos rfl, if_neg hww]; exact hw'⟩
      · rintro ⟨w', hw'⟩
        rw [hheld, if_pos rfl] at hw'
        by_cases hww : w' = w
        · rw [if_pos hww] at hw'
          exact Option.noConfusion hw'
        · rw [if_neg hww] at hw'
          refine ⟨?_, (hfi c' id).mpr ⟨w', hw'⟩⟩
          intro he
          subst he
          exact hww (hinj c' w' w _ hw' hwheld)
    · rw [Function.update_noteq h1, hfi c' id]
      constructor
      · rintro ⟨w', hw'⟩
        exact ⟨w', by rw [hheld, if_neg h1]; exact hw'⟩
      · rintro ⟨w', hw'⟩
        rw [hheld, if_neg h1] at hw'
        exact ⟨w', hw'⟩
  · intro c' w1 w2 id h1 h2
    rw [hheld] at h1 h2
    by_cases hc : c' = c
    · rw [if_pos hc] at h1 h2
      by_cases hw1 : w1 = w
      · rw [if_pos hw1] at h1
        exact Option.noConfusion h1
      · rw [if_neg hw1] at h1
        by_cases hw2 : w2 = w
        · rw [if_pos hw2] at h2
          exact Option.noConfusion h2
        · rw [if_neg hw2] at h2
          exact hinj c' w1 w2 id h1 h2
    · rw [if_neg hc] at h1 h2
      exact hinj c' w1 w2 id h1 h2

theorem flight_frame_preserved {cfg cfg' : Config}
    (hphase : cfg'.phase = cfg.phase)
    (hflight : cfg'.st.inFlight = cfg.st.inFlight)
    (hfi : ∀ c' id, id ∈ cfg.st.inFlight c' ↔ ∃ w', heldBy cfg c' w' = some id)
    (hinj : ∀ c' w1 w2 id, heldBy cfg c' w1 = some id → heldBy cfg c' w2 = some id →
      w1 = w2) :
    (∀ c' id, id ∈ cfg'.st.inFlight c' ↔ ∃ w', heldBy cfg' c' w' = some id) ∧
    (∀ c' w1 w2 id, heldBy cfg' c' w1 = some id → heldBy cfg' c' w2 = some id →
      w1 = w2) := by
  constructor
  · intro c' id
    rw [hflight, hfi c' id]
    exact ⟨fun ⟨w', hw'⟩ => ⟨w', by rw [heldBy_phase hphase]; exact hw'⟩,
      fun ⟨w', hw'⟩ => ⟨w', by rw [← heldBy_phase hphase c' w']; exact hw'⟩⟩
  · intro c' w1 w2 id h1 h2
    rw [heldBy_phase hphase] at h1 h2
    exact hinj c' w1 w2 id h1 h2

end DomainChecker

namespace DomainChecker

theorem popCandidate_lookup (c : Checker) (st : St) :
    ∀ id, lookupRecord (popCandidate c st).2 id = lookupRecord st id := by
  intro id
  unfold lookupRecord
  rw [popCandidate_index, popCandidate_records]

theorem popCandidate_combined (c : Checker) (st : St)
    (hk : (st.index.map Prod.fst).Nodup)
    (hv : (st.index.map Prod.snd).Nodup)
    (hacc : ∀ p ∈ st.index, ∃ r, st.records.get? p.2 = some r ∧ r.id = p.1)
    (hqd : ∀ id ∈ st.qset Checker.dns,
      ∃ r, lookupRecord st id = some r ∧ r.status = DomainStatus.queued)
    (hqr : ∀ id ∈ st.qset Checker.rdap,
      ∃ r, lookupRecord st id = some r ∧ isRdapCandidate r = true) :
    ((popCandidate c st).2.index.map Prod.fst).Nodup ∧
    ((popCandidate c st).2.index.map Prod.snd).Nodup ∧
    (∀ p ∈ (popCandidate c st).2.index,
      ∃ r, (popCandidate c st).2.records.get? p.2 = some r ∧ r.id = p.1) ∧
    (∀ id ∈ (popCandidate c st).2.qset Checker.dns,
      ∃ r, lookupRecord (popCandidate c st).2 id = some r ∧
        r.status = DomainStatus.queued) ∧
    (∀ id ∈ (popCandidate c st).2.qset Checker.rdap,
      ∃ r, lookupRecord (popCandidate c st).2 id = some r ∧
        isRdapCandidate r = true) := by
  have hsub : ∀ c', (popCandidate c st).2.qset c' ⊆ st.qset c' := by
    intro c'
    by_cases hc : c' = c
    · subst hc
      exact popCandidate_qset_subset c' st
    · rw [popCandidate_qset_other c c' st hc]
  refine ⟨?_, ?_, ?_, ?_, ?_⟩
  · rw [popCandidate_index]; exact hk
  · rw [popCandidate_index]; exact hv
  · rw [popCandidate_index, popCandidate_records]; exact hacc
  · intro id hid
    obtain ⟨r, hr, hrq⟩ := hqd id (hsub Checker.dns hid)
    exact ⟨r, by rw [popCandidate_lookup]; exact hr, hrq⟩
  · intro id hid
    obtain ⟨r, hr, hrq⟩ := hqr id (hsub Checker.rdap hid)
    exact ⟨r, by rw [popCandidate_lookup]; exact hr, hrq⟩

theorem foldl_upsertOne_inFlight (updates : List DomainRecord) :
    ∀ st : St, (updates.foldl upsertOne st).inFlight = st.inFlight := by
  induction updates with
  | nil => intro st; rfl
  | cons u t ih =>
      intro st
      rw [List.foldl_cons, ih (upsertOne st u), upsertOne_inFlight]

theorem upsertRecords_inFlight (st : St) (updates : List DomainRecord) :
    (upsertRecords st updates).inFlight = st.inFlight := by
  unfold upsertRecords
  split
  · rfl
  · exact foldl_upsertOne_inFlight updates st

theorem upsertOne_combined (st : St) (item : DomainRecord)
    (hk : (st.index.map Prod.fst).Nodup)
    (hv : (st.index.map Prod.snd).Nodup)
    (hacc : ∀ p ∈ st.index, ∃ r, st.records.get? p.2 = some r ∧ r.id = p.1)
    (hqd : ∀ id ∈ st.qset Checker.dns,
      ∃ r, lookupRecord st id = some r ∧ r.status = DomainStatus.queued)
    (hqr : ∀ id ∈ st.qset Checker.rdap,
      ∃ r, lookupRecord st id = some r ∧ isRdapCandidate r = true) :
    ((upsertOne st item).index.map Prod.fst).Nodup ∧
    ((upsertOne st item).index.map Prod.snd).Nodup ∧
    (∀ p ∈ (upsertOne st item).index,
      ∃ r, (upsertOne st item).records.get? p.2 = some r ∧ r.id = p.1) ∧
    (∀ id ∈ (upsertOne st item).qset Checker.dns,
      ∃ r, lookupRecord (upsertOne st item) id = some r ∧
        r.status = DomainStatus.queued) ∧
    (∀ id ∈ (upsertOne st item).qset Checker.rdap,
      ∃ r, lookupRecord (upsertOne st item) id = some r ∧
        isRdapCandidate r = true) := by
  obtain ⟨k, v, a⟩ := upsertOne_storeInv st item hk hv hacc
  exact ⟨k, v, a, upsertOne_qsetInv_dns st item hv hacc hqd,
    upsertOne_qsetInv_rdap st item hv hacc hqr⟩

theorem foldl_upsertOne_combined (updates : List DomainRecord) :
    ∀ st : St,
      (st.index.map Prod.fst).Nodup →
      (st.index.map Prod.snd).Nodup →
      (∀ p ∈ st.index, ∃ r, st.records.get? p.2 = some r ∧ r.id = p.1) →
      (∀ id ∈ st.qset Checker.dns,
        ∃ r, lookupRecord st id = some r ∧ r.status = DomainStatus.queued) →
      (∀ id ∈ st.qset Checker.rdap,
        ∃ r, lookupRecord st id = some r ∧ isRdapCandidate r = true) →
      (((updates.foldl upsertOne st).index.map Prod.fst).Nodup ∧
        ((updates.foldl upsertOne st).index.map Prod.snd).Nodup ∧
        (∀ p ∈ (updates.foldl upsertOne st).index,
          ∃ r, (updates.foldl upsertOne st).records.get? p.2 = some r ∧ r.id = p.1) ∧
        (∀ id ∈ (updates.foldl upsertOne st).qset Checker.dns,
          ∃ r, lookupRecord (updates.foldl upsertOne st) id = some r ∧
            r.status = DomainStatus.queued) ∧
        (∀ id ∈ (updates.foldl upsertOne st).qset Checker.rdap,
          ∃ r, lookupRecord (updates.foldl upsertOne st) id = some r ∧
            isRdapCandidate r = true)) := by
  induction updates with
  | nil => intro st h1 h2 h3 h4 h5; exact ⟨h1, h2, h3, h4, h5⟩
  | cons u t ih =>
      intro st h1 h2 h3 h4 h5
      rw [List.foldl_cons]
      obtain ⟨k, v, a, d, r⟩ := upsertOne_combined st u h1 h2 h3 h4 h5
      exact ih (upsertOne st u) k v a d r

theorem stopChecker_st (st : St) (c : Checker) :
    (stopChecker st c).records = st.records ∧
    (stopChecker st c).index = st.index ∧
    (stopChecker st c).stats = st.stats ∧
    (stopChecker st c).queue = st.queue ∧
    (stopChecker st c).qset = st.qset ∧
    (stopChecker st c).inFlight = st.inFlight ∧
    (stopChecker st c).running = st.running := by
  unfold stopChecker
  split <;> exact ⟨rfl, rfl, rfl, rfl, rfl, rfl, rfl⟩

end DomainChecker

namespace DomainChecker

theorem upsertRecords_combined (st : St) (updates : List DomainRecord)
    (hk : (st.index.map Prod.fst).Nodup)
    (hv : (st.index.map Prod.snd).Nodup)
    (hacc : ∀ p ∈ st.index, ∃ r, st.records.get? p.2 = some r ∧ r.id = p.1)
    (hqd : ∀ id ∈ st.qset Checker.dns,
      ∃ r, lookupRecord st id = some r ∧ r.status = DomainStatus.queued)
    (hqr : ∀ id ∈ st.qset Checker.rdap,
      ∃ r, lookupRecord st id = some r ∧ isRdapCandidate r = true) :
    ((upsertRecords st updates).index.map Prod.fst).Nodup ∧
    ((upsertRecords st updates).index.map Prod.snd).Nodup ∧
    (∀ p ∈ (upsertRecords st updates).index,
      ∃ r, (upsertRecords st updates).records.get? p.2 = some r ∧ r.id = p.1) ∧
    (∀ id ∈ (upsertRecords st updates).qset Checker.dns,
      ∃ r, lookupRecord (upsertRecords st updates) id = some r ∧
        r.status = DomainStatus.queued) ∧
    (∀ id ∈ (upsertRecords st updates).qset Checker.rdap,
      ∃ r, lookupRecord (upsertRecords st updates) id = some r ∧
        isRdapCandidate r = true) := by
  unfold upsertRecords
  split
  · exact ⟨hk, hv, hacc, hqd, hqr⟩
  · exact foldl_upsertOne_combined updates st hk hv hacc hqd hqr

theorem step_inv {e : Bool} {cfg cfg' : Config} (h : Step e cfg cfg') (hinv : Inv cfg) :
    Inv cfg' := by
  obtain ⟨hk, hv, hacc, hqd, hqr, hfi, hinj⟩ := hinv
  cases h with
  | claimDns env g w r st' hidle hstop hpop =>
      have hpc2 : (popCandidate Checker.dns cfg.st).2 = st' := congrArg Prod.snd hpop
      have hpc1 : (popCandidate Checker.dns cfg.st).1 = some r := congrArg Prod.fst hpop
      have hspec := popCandidate_some_spec Checker.dns cfg.st r hacc hpc1
      obtain ⟨k1, v1, a1, d1, r1⟩ := popCandidate_combined Checker.dns cfg.st hk hv hacc hqd hqr
      rw [hpc2] at k1 v1 a1 d1 r1
      obtain ⟨k3, v3, a3, d3, r3⟩ :=
        upsertOne_combined (addFlight st' Checker.dns r.id)
          { r with status := DomainStatus.checking } k1 v1 a1 d1 r1
      have hinfl : (upsertOne (addFlight st' Checker.dns r.id)
          { r with status := DomainStatus.checking }).inFlight =
          Function.update cfg.st.inFlight Checker.dns
            (insert r.id (cfg.st.inFlight Checker.dns)) := by
        rw [upsertOne_inFlight]
        have hif : st'.inFlight = cfg.st.inFlight := by
          rw [← hpc2, popCandidate_inFlight]
        show Function.update st'.inFlight Checker.dns
          (insert r.id (st'.inFlight Checker.dns)) = _
        rw [hif]
      exact ⟨k3, v3, a3, d3, r3,
        (flight_claim_preserved rfl hinfl hidle hspec.2.1 hfi hinj).1,
        (flight_claim_preserved rfl hinfl hidle hspec.2.1 hfi hinj).2⟩
  | claimRdap env g w r st' hidle hstop hpop =>
      have hpc2 : (popCandidate Checker.rdap cfg.st).2 = st' := congrArg Prod.snd hpop
      have hpc1 : (popCandidate Checker.rdap cfg.st).1 = some r := congrArg Prod.fst hpop
      have hspec := popCandidate_some_spec Checker.rdap cfg.st r hacc hpc1
      obtain ⟨k1, v1, a1, d1, r1⟩ :=
        popCandidate_combined Checker.rdap cfg.st hk hv hacc hqd hqr
      rw [hpc2] at k1 v1 a1 d1 r1
      have hinfl : (addFlight st' Checker.rdap r.id).inFlight =
          Function.update cfg.st.inFlight Checker.rdap
            (insert r.id (cfg.st.inFlight Checker.rdap)) := by
        have hif : st'.inFlight = cfg.st.inFlight := by
          rw [← hpc2, popCandidate_inFlight]
        show Function.update st'.inFlight Checker.rdap
          (insert r.id (st'.inFlight Checker.rdap)) = _
        rw [hif]
      exact ⟨k1, v1, a1, d1, r1,
        (flight_claim_preserved rfl hinfl hidle hspec.2.1 hfi hinj).1,
        (flight_claim_preserved rfl hinfl hidle hspec.2.1 hfi hinj).2⟩
  | claimNone env g c w st' hidle hstop hpop =>
      have hpc2 : (popCandidate c cfg.st).2 = st' := congrArg Prod.snd hpop
      obtain ⟨k1, v1, a1, d1, r1⟩ := popCandidate_combined c cfg.st hk hv hacc hqd hqr
      rw [hpc2] at k1 v1 a1 d1 r1
      have hif : st'.inFlight = cfg.st.inFlight := by
        rw [← hpc2, popCandidate_inFlight]
      exact ⟨k1, v1, a1, d1, r1,
        (@flight_frame_preserved cfg ⟨st', cfg.phase⟩ rfl hif hfi hinj).1,
        (@flight_frame_preserved cfg ⟨st', cfg.phase⟩ rfl hif hfi hinj).2⟩
  | writeBackDns env g w r resp rdap now hw =>
      obtain ⟨k3, v3, a3, d3, r3⟩ :=
        upsertOne_combined cfg.st
          (runDnsLookup { r with status := DomainStatus.checking } resp rdap now)
          hk hv hacc hqd hqr
      exact ⟨k3, v3, a3, d3, r3,
        (flight_wrote_preserved rfl
          (upsertOne_inFlight cfg.st
            (runDnsLookup { r with status := DomainStatus.checking } resp rdap now))
          hw hfi hinj).1,
        (flight_wrote_preserved rfl
          (upsertOne_inFlight cfg.st
            (runDnsLookup { r with status := DomainStatus.checking } resp rdap now))
          hw hfi hinj).2⟩
  | writeBackRdap env g w r resp now hw =>
      obtain ⟨k3, v3, a3, d3, r3⟩ :=
        upsertOne_combined cfg.st (runRdapOnly r resp now) hk hv hacc hqd hqr
      exact ⟨k3, v3, a3, d3, r3,
        (flight_wrote_preserved rfl
          (upsertOne_inFlight cfg.st (runRdapOnly r resp now)) hw hfi hinj).1,
        (flight_wrote_preserved rfl
          (upsertOne_inFlight cfg.st (runRdapOnly r resp now)) hw hfi hinj).2⟩
  | finish env g c w r hw =>
      exact ⟨hk, hv, hacc, hqd, hqr,
        (flight_finish_preserved rfl rfl hw hfi hinj).1,
        (flight_finish_preserved rfl rfl hw hfi hinj).2⟩
  | envUpsert g updates =>
      obtain ⟨k1, v1, a1, d1, r1⟩ :=
        upsertRecords_combined cfg.st updates hk hv hacc hqd hqr
      exact ⟨k1, v1, a1, d1, r1,
        (@flight_frame_preserved cfg ⟨upsertRecords cfg.st updates, cfg.phase⟩ rfl
          (upsertRecords_inFlight cfg.st updates) hfi hinj).1,
        (@flight_frame_preserved cfg ⟨upsertRecords cfg.st updates, cfg.phase⟩ rfl
          (upsertRecords_inFlight cfg.st updates) hfi hinj).2⟩
  | stopReq env g c =>
      obtain ⟨e1, e2, e3, e4, e5, e6, e7⟩ := stopChecker_st cfg.st c
      refine ⟨?_, ?_, ?_, ?_, ?_,
        (@flight_frame_preserved cfg ⟨stopChecker cfg.st c, cfg.phase⟩ rfl e6 hfi hinj).1,
        (@flight_frame_preserved cfg ⟨stopChecker cfg.st c, cfg.phase⟩ rfl e6 hfi hinj).2⟩
      · rw [e2]; exact hk
      · rw [e2]; exact hv
      · rw [e2, e1]; exact hacc
      · intro id hid
        rw [e5] at hid
        obtain ⟨r, hr, hrq⟩ := hqd id hid
        refine ⟨r, ?_, hrq⟩
        unfold lookupRecord
        rw [e2, e1]
        exact hr
      · intro id hid
        rw [e5] at hid
        obtain ⟨r, hr, hrq⟩ := hqr id hid
        refine ⟨r, ?_, hrq⟩
        unfold lookupRecord
        rw [e2, e1]
        exact hr

end DomainChecker

namespace DomainChecker

theorem inv_init : Inv initConfig := by
  refine ⟨?_, ?_, ?_, ?_, ?_, ?_, ?_⟩
  · simp [initConfig, initSt]
  · simp [initConfig, initSt]
  · intro p hp
    simp [initConfig, initSt] at hp
  · intro id hid
    simp [initConfig, initSt] at hid
  · intro id hid
    simp [initConfig, initSt] at hid
  · intro c id
    constructor
    · intro hid
      simp [initConfig, initSt] at hid
    · rintro ⟨w, hw⟩
      simp [heldBy, initConfig] at hw
  · intro c w w' id h1 h2
    simp [heldBy, initConfig] at h1

theorem reach_inv {cfg : Config} (h : Reach cfg) : Inv cfg := by
  induction h with
  | refl => exact inv_init
  | tail hsteps hstep ih => exact step_inv hstep ih

theorem schedSteps_inv {cfg cfg' : Config} (h : SchedSteps cfg cfg') (hinv : Inv cfg) :
    Inv cfg' := by
  induction h with
  | refl => exact hinv
  | tail hsteps hstep ih => exact step_inv hstep ih

/-- **C1** (confirmed).  In every reachable configuration: `popCandidate`
never returns a record whose key is already in that stage's in-flight set;
a popped key is removed from the stage's membership set in the same atomic
step; no key is ever held by two workers of a stage simultaneously (the
in-flight set is exactly the set of keys held by the stage's workers); and
the in-flight set's size never exceeds the pool size `BATCH_SIZE = 50`. -/
theorem no_double_claim (cfg : Config) (h : Reach cfg) :
    (∀ c r, (popCandidate c cfg.st).1 = some r → r.id ∉ cfg.st.inFlight c) ∧
    (∀ c r, (popCandidate c cfg.st).1 = some r →
      r.id ∉ (popCandidate c cfg.st).2.qset c) ∧
    (∀ c w w' id, heldBy cfg c w = some id → heldBy cfg c w' = some id → w = w') ∧
    (∀ c id, id ∈ cfg.st.inFlight c ↔ ∃ w, heldBy cfg c w = some id) ∧
    (∀ c, (cfg.st.inFlight c).card ≤ BATCH_SIZE) := by
  obtain ⟨hk, hv, hacc, hqd, hqr, hfi, hinj⟩ := reach_inv h
  refine ⟨?_, ?_, hinj, hfi, ?_⟩
  · intro c r hc
    exact (popCandidate_some_spec c cfg.st r hacc hc).2.1
  · intro c r hc
    exact (popCandidate_some_spec c cfg.st r hacc hc).2.2.2
  · intro c
    have hsub : cfg.st.inFlight c ⊆
        Finset.univ.image (fun w : Fin BATCH_SIZE => (heldBy cfg c w).getD "") := by
      intro id hid
      obtain ⟨w, hw⟩ := (hfi c id).mp hid
      refine Finset.mem_image.mpr ⟨w, Finset.mem_univ w, ?_⟩
      rw [hw]
      rfl
    calc (cfg.st.inFlight c).card
        ≤ (Finset.univ.image (fun w : Fin BATCH_SIZE => (heldBy cfg c w).getD "")).card :=
          Finset.card_le_card hsub
      _ ≤ (Finset.univ : Finset (Fin BATCH_SIZE)).card := Finset.card_image_le
      _ = BATCH_SIZE := by simp

/-- Witness for **C1** at the initial configuration (reachable by the
empty interleaving): both in-flight sets respect the pool bound. -/
theorem no_double_claim_witness :
    (initConfig.st.inFlight Checker.dns).card ≤ BATCH_SIZE ∧
    (initConfig.st.inFlight Checker.rdap).card ≤ BATCH_SIZE :=
  ⟨(no_double_claim initConfig Relation.ReflTransGen.refl).2.2.2.2 Checker.dns,
    (no_double_claim initConfig Relation.ReflTransGen.refl).2.2.2.2 Checker.rdap⟩

/-- **C4** (confirmed).  In every reachable configuration, a key whose
stored record no longer satisfies `isRdapCandidate` is not in the
verify-stage membership set (so `popCandidate` skips its stale queue
entry), and every record the verify stage actually dequeues satisfies the
eligibility predicate at dequeue time. -/
theorem eligibility_recheck (cfg : Config) (h : Reach cfg) :
    (∀ id r, lookupRecord cfg.st id = some r → isRdapCandidate r = false →
      id ∉ cfg.st.qset Checker.rdap) ∧
    (∀ r, (popCandidate Checker.rdap cfg.st).1 = some r →
      isRdapCandidate r = true) := by
  obtain ⟨hk, hv, hacc, hqd, hqr, hfi, hinj⟩ := reach_inv h
  constructor
  · intro id r hr hnc hid
    obtain ⟨r', hr', hc'⟩ := hqr id hid
    rw [hr] at hr'
    rw [Option.some.inj hr'] at hnc
    rw [hnc] at hc'
    exact Bool.false_ne_true hc'
  · intro r hc
    have hspec := popCandidate_some_spec Checker.rdap cfg.st r hacc hc
    obtain ⟨r', hr', hc'⟩ := hqr r.id hspec.1
    rw [hspec.2.2.1] at hr'
    rw [← Option.some.inj hr'] at hc'
    exact hc'

end DomainChecker

namespace DomainChecker

/-- Witness for **C4**: a store holding one `"taken"` record (reachable by
one `enqueueDomains`-style environment upsert): its key is not in the
verify-stage membership set, so a verify worker skips it. -/
theorem eligibility_recheck_witness :
    "T" ∉ (upsertRecords initSt
      [{ id := "T", domain := "t.test", core := "t",
         status := DomainStatus.taken, rdapStatus := RdapStatus.not_checked,
         createdAt := 0, checkedAt := none, source := "import" }]).qset Checker.rdap :=
  (eligibility_recheck
      ⟨upsertRecords initSt
        [{ id := "T", domain := "t.test", core := "t",
           status := DomainStatus.taken, rdapStatus := RdapStatus.not_checked,
           createdAt := 0, checkedAt := none, source := "import" }],
        fun _ _ => Phase.idle⟩
      (Relation.ReflTransGen.tail Relation.ReflTransGen.refl
        (Step.envUpsert initConfig
          [{ id := "T", domain := "t.test", core := "t",
             status := DomainStatus.taken, rdapStatus := RdapStatus.not_checked,
             createdAt := 0, checkedAt := none, source := "import" }]))).1
    "T"
    { id := "T", domain := "t.test", core := "t",
      status := DomainStatus.taken, rdapStatus := RdapStatus.not_checked,
      createdAt := 0, checkedAt := none, source := "import" }
    (by decide) (by decide)

theorem runDnsLookup_id (record : DomainRecord) (resp : DnsResp) (rdap : RdapResp)
    (now : Nat) : (runDnsLookup record resp rdap now).id = record.id := by
  cases resp with
  | failure => rfl
  | notOk => rfl
  | ok code =>
      cases code with
      | none => rfl
      | some c =>
          simp only [runDnsLookup]
          split_ifs <;> rfl

theorem runRdapOnly_id (record : DomainRecord) (rdap : RdapResp) (now : Nat) :
    (runRdapOnly record rdap now).id = record.id := rfl

end DomainChecker

namespace DomainChecker

theorem takenSettled_step {cfg cfg' : Config} {id : String}
    (h : Step false cfg cfg') (hinv : Inv cfg) (hts : TakenSettled cfg.st id) :
    TakenSettled cfg'.st id := by
  obtain ⟨hk, hv, hacc, hqd, hqr, hfi, hinj⟩ := hinv
  obtain ⟨⟨rec, hrec, htaken, hnotc⟩, hnin⟩ := hts
  cases h with
  | claimDns env g w r st' hidle hstop hpop =>
      have hpc1 : (popCandidate Checker.dns cfg.st).1 = some r := congrArg Prod.fst hpop
      have hpc2 : (popCandidate Checker.dns cfg.st).2 = st' := congrArg Prod.snd hpop
      have hspec := popCandidate_some_spec Checker.dns cfg.st r hacc hpc1
      have hne : r.id ≠ id := by
        intro he
        obtain ⟨r', hr', hq'⟩ := hqd r.id hspec.1
        rw [he, hrec] at hr'
        rw [← Option.some.inj hr'] at hq'
        rw [htaken] at hq'
        exact DomainStatus.noConfusion hq'
      obtain ⟨k1, v1, a1, d1, r1⟩ :=
        popCandidate_combined Checker.dns cfg.st hk hv hacc hqd hqr
      rw [hpc2] at k1 v1 a1 d1 r1
      have hif : st'.inFlight = cfg.st.inFlight := by
        rw [← hpc2, popCandidate_inFlight]
      constructor
      · refine ⟨rec, ?_, htaken, hnotc⟩
        have h1 := upsertOne_lookup_other (addFlight st' Checker.dns r.id)
          { r with status := DomainStatus.checking } id (fun he => hne he.symm) v1 a1
        rw [h1]
        show lookupRecord st' id = some rec
        rw [← hpc2, popCandidate_lookup]
        exact hrec
      · intro c''
        rw [show (upsertOne (addFlight st' Checker.dns r.id)
            { r with status := DomainStatus.checking }).inFlight =
            (addFlight st' Checker.dns r.id).inFlight from upsertOne_inFlight _ _]
        show id ∉ Function.update st'.inFlight Checker.dns
          (insert r.id (st'.inFlight Checker.dns)) c''
        by_cases hc : c'' = Checker.dns
        · subst hc
          rw [Function.update_same]
          intro hmem
          rcases Finset.mem_insert.mp hmem with he | hmem2
          · exact hne he.symm
          · rw [hif] at hmem2
            exact hnin _ hmem2
        · rw [Function.update_noteq hc, hif]
          exact hnin c''
  | claimRdap env g w r st' hidle hstop hpop =>
      have hpc1 : (popCandidate Checker.rdap cfg.st).1 = some r := congrArg Prod.fst hpop
      have hpc2 : (popCandidate Checker.rdap cfg.st).2 = st' := congrArg Prod.snd hpop
      have hspec := popCandidate_some_spec Checker.rdap cfg.st r hacc hpc1
      have hne : r.id ≠ id := by
        intro he
        obtain ⟨r', hr', hq'⟩ := hqr r.id hspec.1
        rw [he, hrec] at hr'
        have hav : r'.status = DomainStatus.available := by
          have hb := hq'
          unfold isRdapCandidate at hb
          rw [Bool.and_eq_true] at hb
          exact of_decide_eq_true hb.1
        rw [← Option.some.inj hr'] at hav
        rw [htaken] at hav
        exact DomainStatus.noConfusion hav
      have hif : st'.inFlight = cfg.st.inFlight := by
        rw [← hpc2, popCandidate_inFlight]
      constructor
      · refine ⟨rec, ?_, htaken, hnotc⟩
        show lookupRecord st' id = some rec
        rw [← hpc2, popCandidate_lookup]
        exact hrec
      · intro c''
        show id ∉ Function.update st'.inFlight Checker.rdap
          (insert r.id (st'.inFlight Checker.rdap)) c''
        by_cases hc : c'' = Checker.rdap
        · subst hc
          rw [Function.update_same]
          intro hmem
          rcases Finset.mem_insert.mp hmem with he | hmem2
          · exact hne he.symm
          · rw [hif] at hmem2
            exact hnin _ hmem2
        · rw [Function.update_noteq hc, hif]
          exact hnin c''
  | claimNone env g c w st' hidle hstop hpop =>
      have hpc2 : (popCandidate c cfg.st).2 = st' := congrArg Prod.snd hpop
      have hif : st'.inFlight = cfg.st.inFlight := by
        rw [← hpc2, popCandidate_inFlight]
      constructor
      · refine ⟨rec, ?_, htaken, hnotc⟩
        show lookupRecord st' id = some rec
        rw [← hpc2, popCandidate_lookup]
        exact hrec
      · intro c''
        show id ∉ st'.inFlight c''
        rw [hif]
        exact hnin c''
  | writeBackDns env g w r resp rdap now hw =>
      have hrflight : r.id ∈ cfg.st.inFlight Checker.dns := by
        refine (hfi Checker.dns r.id).mpr ⟨w, ?_⟩
        unfold heldBy
        rw [hw]
      have hne : id ≠ (runDnsLookup { r with status := DomainStatus.checking }
          resp rdap now).id := by
        rw [runDnsLookup_id]
        intro he
        exact hnin Checker.dns (by rw [he]; exact hrflight)
      constructor
      · refine ⟨rec, ?_, htaken, hnotc⟩
        rw [upsertOne_lookup_other cfg.st _ id hne hv hacc]
        exact hrec
      · intro c''
        rw [show (upsertOne cfg.st (runDnsLookup { r with status := DomainStatus.checking }
            resp rdap now)).inFlight = cfg.st.inFlight from upsertOne_inFlight _ _]
        exact hnin c''
  | writeBackRdap env g w r resp now hw =>
      have hrflight : r.id ∈ cfg.st.inFlight Checker.rdap := by
        refine (hfi Checker.rdap r.id).mpr ⟨w, ?_⟩
        unfold heldBy
        rw [hw]
      have hne : id ≠ (runRdapOnly r resp now).id := by
        rw [runRdapOnly_id]
        intro he
        exact hnin Checker.rdap (by rw [he]; exact hrflight)
      constructor
      · refine ⟨rec, ?_, htaken, hnotc⟩
        rw [upsertOne_lookup_other cfg.st _ id hne hv hacc]
        exact hrec
      · intro c''
        rw [show (upsertOne cfg.st (runRdapOnly r resp now)).inFlight =
            cfg.st.inFlight from upsertOne_inFlight _ _]
        exact hnin c''
  | finish env g c w r hw =>
      constructor
      · exact ⟨rec, hrec, htaken, hnotc⟩
      · intro c''
        show id ∉ Function.update cfg.st.inFlight c ((cfg.st.inFlight c).erase r.id) c''
        by_cases hc : c'' = c
        · subst hc
          rw [Function.update_same]
          intro hmem
          exact hnin c'' (Finset.mem_of_mem_erase hmem)
        · rw [Function.update_noteq hc]
          exact hnin c''
  | stopReq env g c =>
      obtain ⟨e1, e2, e3, e4, e5, e6, e7⟩ := stopChecker_st cfg.st c
      constructor
      · refine ⟨rec, ?_, htaken, hnotc⟩
        unfold lookupRecord
        rw [e2, e1]
        exact hrec
      · intro c''
        rw [e6]
        exact hnin c''

end DomainChecker

namespace DomainChecker

/-- **C7** (confirmed).  (1) A resolve-stage lookup whose DNS answer has a
numeric Status code other than 3, 2 and 5 writes status `"taken"`, leaves
`rdapStatus` at `"not_checked"`, and the written record fails the
verify-stage eligibility predicate `isRdapCandidate`.  (2) Once a key's
stored record is settled as taken/not_checked with no worker holding the
key, every further scheduler execution (worker steps and stop requests,
no environment mutation) preserves that: the record is never changed and
the key is never claimed again, so it never becomes verify-eligible. -/
theorem taken_is_terminal :
    (∀ (record : DomainRecord) (c : Int) (rdap : RdapResp) (now : Nat),
        c ≠ 3 → c ≠ 2 → c ≠ 5 →
        (runDnsLookup record (DnsResp.ok (some c)) rdap now).status
            = DomainStatus.taken ∧
        (runDnsLookup record (DnsResp.ok (some c)) rdap now).rdapStatus
            = RdapStatus.not_checked ∧
        isRdapCandidate (runDnsLookup record (DnsResp.ok (some c)) rdap now)
            = false) ∧
    (∀ (cfg cfg' : Config) (id : String), Reach cfg → SchedSteps cfg cfg' →
        TakenSettled cfg.st id → TakenSettled cfg'.st id) := by
  constructor
  · intro record c rdap now h3 h2 h5
    unfold runDnsLookup
    simp only []
    rw [if_neg h3, if_neg (fun h => h.elim h2 h5)]
    exact ⟨rfl, rfl, rfl⟩
  · intro cfg cfg' id hreach hsched hts
    have hinv := reach_inv hreach
    induction hsched with
    | refl => exact hts
    | tail hsteps hstep ih =>
        exact takenSettled_step hstep (schedSteps_inv hsteps hinv) ih

end DomainChecker

namespace DomainChecker

/-- Witness for **C7**: DNS Status 0 (NOERROR) on a queued record yields a
taken/not_checked record that is not verify-eligible; and a store holding
the settled record `"B"` (reachable by one environment upsert) keeps it
settled across the empty scheduler execution. -/
theorem taken_is_terminal_witness :
    ((runDnsLookup
        { id := "B", domain := "b.test", core := "b",
          status := DomainStatus.checking, rdapStatus := RdapStatus.not_checked,
          createdAt := 0, checkedAt := none, source := "import" }
        (DnsResp.ok (some 0)) (RdapResp.http 404) 5).status = DomainStatus.taken) ∧
    TakenSettled
      (upsertRecords initSt
        [{ id := "B", domain := "b.test", core := "b",
           status := DomainStatus.taken, rdapStatus := RdapStatus.not_checked,
           createdAt := 0, checkedAt := none, source := "import" }]) "B" :=
  ⟨(taken_is_terminal.1
      { id := "B", domain := "b.test", core := "b",
        status := DomainStatus.checking, rdapStatus := RdapStatus.not_checked,
        createdAt := 0, checkedAt := none, source := "import" }
      0 (RdapResp.http 404) 5 (by decide) (by decide) (by decide)).1,
   taken_is_terminal.2
      ⟨upsertRecords initSt
        [{ id := "B", domain := "b.test", core := "b",
           status := DomainStatus.taken, rdapStatus := RdapStatus.not_checked,
           createdAt := 0, checkedAt := none, source := "import" }],
        fun _ _ => Phase.idle⟩
      ⟨upsertRecords initSt
        [{ id := "B", domain := "b.test", core := "b",
           status := DomainStatus.taken, rdapStatus := RdapStatus.not_checked,
           createdAt := 0, checkedAt := none, source := "import" }],
        fun _ _ => Phase.idle⟩
      "B"
      (Relation.ReflTransGen.tail Relation.ReflTransGen.refl
        (Step.envUpsert initConfig
          [{ id := "B", domain := "b.test", core := "b",
             status := DomainStatus.taken, rdapStatus := RdapStatus.not_checked,
             createdAt := 0, checkedAt := none, source := "import" }]))
      Relation.ReflTransGen.refl
      ⟨⟨{ id := "B", domain := "b.test", core := "b",
          status := DomainStatus.taken, rdapStatus := RdapStatus.not_checked,
          createdAt := 0, checkedAt := none, source := "import" },
        by decide, rfl, rfl⟩,
        by intro c; cases c <;> decide⟩⟩

end DomainChecker

namespace DomainChecker

/-- **C9** (confirmed).  `stopChecker` is a guarded pure update, so it
never throws: (1) it is a no-op when the stage is not running; (2) it is
idempotent; (3) it only writes the stage's stop flag and the status
message — store, index, stats, queues, membership sets, in-flight sets,
running flags and the other stage's stop flag are untouched; (4) a worker
holding a finished item can always complete (release its key and go idle)
regardless of stop flags, so in-flight work is never forcibly cancelled;
(5) once a stage's stop flag is set, an idle worker of that stage never
claims new work; (6) a worker that is mid-lookup either stays mid-lookup
or completes its write-back — no step discards its in-flight item. -/
theorem stop_idempotent :
    (∀ (st : St) (c : Checker), st.running c = false → stopChecker st c = st) ∧
    (∀ (st : St) (c : Checker),
        stopChecker (stopChecker st c) c = stopChecker st c) ∧
    (∀ (st : St) (c : Checker),
        (stopChecker st c).records = st.records ∧
        (stopChecker st c).index = st.index ∧
        (stopChecker st c).stats = st.stats ∧
        (stopChecker st c).queue = st.queue ∧
        (stopChecker st c).qset = st.qset ∧
        (stopChecker st c).inFlight = st.inFlight ∧
        (stopChecker st c).running = st.running ∧
        ∀ c', c' ≠ c → (stopChecker st c).stopRequested c' = st.stopRequested c') ∧
    (∀ (cfg : Config) (c : Checker) (w : Fin BATCH_SIZE) (r : DomainRecord),
        cfg.phase c w = Phase.wrote r →
        Step false cfg
          { st := dropFlight cfg.st c r.id,
            phase := updPhase cfg.phase c w Phase.idle }) ∧
    (∀ (cfg cfg' : Config) (c : Checker) (w : Fin BATCH_SIZE),
        Step false cfg cfg' → cfg.st.stopRequested c = true →
        cfg.phase c w = Phase.idle → cfg'.phase c w = Phase.idle) ∧
    (∀ (cfg cfg' : Config) (c : Checker) (w : Fin BATCH_SIZE) (r : DomainRecord),
        Step false cfg cfg' → cfg.phase c w = Phase.working r →
        cfg'.phase c w = Phase.working r ∨ cfg'.phase c w = Phase.wrote r) := by
  refine ⟨?_, ?_, ?_, ?_, ?_, ?_⟩
  · intro st c h
    simp [stopChecker, h]
  · intro st c
    by_cases hr : st.running c = true
    · simp [stopChecker, hr, Function.update_idem]
    · simp [stopChecker, hr]
  · intro st c
    obtain ⟨e1, e2, e3, e4, e5, e6, e7⟩ := stopChecker_st st c
    refine ⟨e1, e2, e3, e4, e5, e6, e7, ?_⟩
    intro c' hne
    unfold stopChecker
    split
    · exact Function.update_noteq hne true st.stopRequested
    · rfl
  · intro cfg c w r hw
    exact Step.finish false cfg c w r hw
  · intro cfg cfg' c w hstep hstop hidle
    cases hstep with
    | claimDns env g w' r' st' hidle' hstop' hpop =>
        show updPhase cfg.phase Checker.dns w' (Phase.working r') c w = Phase.idle
        simp only [updPhase_apply]
        split_ifs with h1 h2
        · rw [h1] at hstop
          rw [hstop'] at hstop
          exact Bool.noConfusion hstop
        · exact hidle
        · exact hidle
    | claimRdap env g w' r' st' hidle' hstop' hpop =>
        show updPhase cfg.phase Checker.rdap w' (Phase.working r') c w = Phase.idle
        simp only [updPhase_apply]
        split_ifs with h1 h2
        · rw [h1] at hstop
          rw [hstop'] at hstop
          exact Bool.noConfusion hstop
        · exact hidle
        · exact hidle
    | claimNone env g c'' w' st' hidle' hstop' hpop =>
        exact hidle
    | writeBackDns env g w' r' resp rdap now hw' =>
        show updPhase cfg.phase Checker.dns w' (Phase.wrote r') c w = Phase.idle
        simp only [updPhase_apply]
        split_ifs with h1 h2
        · rw [h1, h2] at hidle
          rw [hidle] at hw'
          exact Phase.noConfusion hw'
        · exact hidle
        · exact hidle
    | writeBackRdap env g w' r' resp now hw' =>
        show updPhase cfg.phase Checker.rdap w' (Phase.wrote r') c w = Phase.idle
        simp only [updPhase_apply]
        split_ifs with h1 h2
        · rw [h1, h2] at hidle
          rw [hidle] at hw'
          exact Phase.noConfusion hw'
        · exact hidle
        · exact hidle
    | finish env g c'' w' r' hw' =>
        show updPhase cfg.phase c'' w' Phase.idle c w = Phase.idle
        simp only [updPhase_apply]
        split_ifs with h1 h2
        · rfl
        · exact hidle
        · exact hidle
    | stopReq env g c'' =>
        exact hidle
  · intro cfg cfg' c w r hstep hw
    cases hstep with
    | claimDns env g w' r' st' hidle' hstop' hpop =>
        show updPhase cfg.phase Checker.dns w' (Phase.working r') c w
            = Phase.working r ∨ updPhase cfg.phase Checker.dns w' (Phase.working r') c w = Phase.wrote r
        simp only [updPhase_apply]
        split_ifs with h1 h2
        · rw [h1, h2] at hw
          rw [hidle'] at hw
          exact Phase.noConfusion hw
        · exact Or.inl hw
        · exact Or.inl hw
    | claimRdap env g w' r' st' hidle' hstop' hpop =>
        show updPhase cfg.phase Checker.rdap w' (Phase.working r') c w
            = Phase.working r ∨ updPhase cfg.phase Checker.rdap w' (Phase.working r') c w = Phase.wrote r
        simp only [updPhase_apply]
        split_ifs with h1 h2
        · rw [h1, h2] at hw
          rw [hidle'] at hw
          exact Phase.noConfusion hw
        · exact Or.inl hw
        · exact Or.inl hw
    | claimNone env g c'' w' st' hidle' hstop' hpop =>
        exact Or.inl hw
    | writeBackDns env g w' r' resp rdap now hw' =>
        show updPhase cfg.phase Checker.dns w' (Phase.wrote r') c w
            = Phase.working r ∨ updPhase cfg.phase Checker.dns w' (Phase.wrote r') c w = Phase.wrote r
        simp only [updPhase_apply]
        split_ifs with h1 h2
        · rw [h1, h2] at hw
          rw [hw'] at hw
          injection hw with he
          exact Or.inr (congrArg Phase.wrote he)
        · exact Or.inl hw
        · exact Or.inl hw
    | writeBackRdap env g w' r' resp now hw' =>
        show updPhase cfg.phase Checker.rdap w' (Phase.wrote r') c w
            = Phase.working r ∨ updPhase cfg.phase Checker.rdap w' (Phase.wrote r') c w = Phase.wrote r
        simp only [updPhase_apply]
        split_ifs with h1 h2
        · rw [h1, h2] at hw
          rw [hw'] at hw
          injection hw with he
          exact Or.inr (congrArg Phase.wrote he)
        · exact Or.inl hw
        · exact Or.inl hw
    | finish env g c'' w' r' hw' =>
        show updPhase cfg.phase c'' w' Phase.idle c w
            = Phase.working r ∨ updPhase cfg.phase c'' w' Phase.idle c w = Phase.wrote r
        simp only [updPhase_apply]
        split_ifs with h1 h2
        · rw [h1, h2] at hw
          rw [hw'] at hw
          exact Phase.noConfusion hw
        · exact Or.inl hw
        · exact Or.inl hw
    | stopReq env g c'' =>
        exact Or.inl hw

end DomainChecker

namespace DomainChecker

/-- Witness for **C9**: stopping the DNS stage after `handleClear` (stage
not running) changes nothing, and after a stop request the idle DNS
worker 0 stays idle across a further stop-request step. -/
theorem stop_idempotent_witness :
    stopChecker (handleClear initSt) Checker.dns = handleClear initSt ∧
    ({ st := stopChecker (stopChecker initSt Checker.dns) Checker.dns,
       phase := fun _ _ => Phase.idle } : Config).phase Checker.dns ⟨0, by decide⟩
      = Phase.idle :=
  ⟨stop_idempotent.1 (handleClear initSt) Checker.dns (by decide),
   stop_idempotent.2.2.2.2.1
     ⟨stopChecker initSt Checker.dns, fun _ _ => Phase.idle⟩
     ⟨stopChecker (stopChecker initSt Checker.dns) Checker.dns,
       fun _ _ => Phase.idle⟩
     Checker.dns ⟨0, by decide⟩
     (Step.stopReq false ⟨stopChecker initSt Checker.dns, fun _ _ => Phase.idle⟩
       Checker.dns)
     (by decide) rfl⟩

end DomainChecker
